import Mathlib

/-!
Verification of the Wisconsin legal-RAG retrieval pipeline.

This file is a shallow embedding, in Lean 4, of the Python code under
`backend/`: the query enhancer, hybrid search engine, context-window
manager and citation extraction of `rag_system/advanced_rag_system.py`,
the case-law chunker of `document_processing/document_chunker.py`, the
document-type detection of `document_processing/document_processor.py`,
the confidence computation of `chatbot/langchain_rag_chatbot.py`, and
the task lifecycle and request validation of `flask_server/app.py`.

Strings are modelled as `List Char`; Python floats are modelled as exact
rationals (`Rat`); Python exceptions (in particular `ZeroDivisionError`)
are modelled with `Option`; external collaborators (the vector database
and the embedding model) are modelled as inputs to the functions that
consume their responses.  Python `dict` iteration order is insertion
order and is modelled by association lists.
-/

set_option maxRecDepth 20000

/-- Strings of the embedded program: Python `str` as a list of characters. -/
abbrev Str := List Char

/-- Python's `str.lower()` (ASCII case folding suffices for the corpus at hand). -/
def pyLower (s : Str) : Str := s.map Char.toLower

/-- Python's `\s` class: whitespace characters recognised by `str.split()` / `str.strip()`. -/
def isPySpace (c : Char) : Bool :=
  c = ' ' || c = '\t' || c = '\n' || c = '\r' || c = '\x0b' || c = '\x0c'

/-- Python's `\w` class, used for `\b` word boundaries (ASCII). -/
def isWordChar (c : Char) : Bool := c.isAlphanum || c = '_'

/-- Does `hay` start with `needle` (exact characters)? -/
def startsWithL (needle hay : Str) : Bool :=
  match needle, hay with
  | [], _ => true
  | _ :: _, [] => false
  | a :: as, b :: bs => a = b && startsWithL as bs

/-- Does `hay` start with `needle`, comparing case-insensitively? -/
def startsWithCI (needle hay : Str) : Bool :=
  match needle, hay with
  | [], _ => true
  | _ :: _, [] => false
  | a :: as, b :: bs => a.toLower = b.toLower && startsWithL (pyLower as) (pyLower bs)

/-- Python's substring containment test `needle in hay`. -/
def pyIn (needle : Str) : Str → Bool
  | [] => needle.isEmpty
  | c :: cs => startsWithL needle (c :: cs) || pyIn needle cs

/-- `r` occurs contiguously inside `s` (the property that `pyIn` decides). -/
def SubOf (r s : Str) : Prop := ∃ u v, s = u ++ r ++ v

/-- Python's `str.strip()`: drop leading and trailing whitespace. -/
def pyStrip (s : Str) : Str :=
  ((s.dropWhile isPySpace).reverse.dropWhile isPySpace).reverse

/-- Python's `str.split(sep)` for a one-character separator (keeps empty fields). -/
def splitChar (c : Char) : Str → List Str
  | [] => [[]]
  | a :: as =>
    if a = c then [] :: splitChar c as
    else
      match splitChar c as with
      | [] => [[a]]
      | h :: t => (a :: h) :: t

/-- Worker for `pyTokens`; `cur` is the current token, reversed. -/
def pyTokensGo (cur : Str) : Str → List Str
  | [] => if cur.isEmpty then [] else [cur.reverse]
  | c :: cs =>
    if isPySpace c then
      if cur.isEmpty then pyTokensGo [] cs else cur.reverse :: pyTokensGo [] cs
    else pyTokensGo (c :: cur) cs

/-- Python's `str.split()` with no argument: split on whitespace runs, dropping empties. -/
def pyTokens (s : Str) : List Str := pyTokensGo [] s

/-- First occurrence of `sep` in `s`: the part before it and the part after it. -/
def breakAtSub (sep : Str) : Str → Option (Str × Str)
  | [] => if sep.isEmpty then some ([], []) else none
  | c :: cs =>
    if startsWithL sep (c :: cs) then some ([], (c :: cs).drop sep.length)
    else
      match breakAtSub sep cs with
      | some (p, q) => some (c :: p, q)
      | none => none

/-- Fuelled worker for `pySplitOn`. -/
def splitOnStrF (sep : Str) : Nat → Str → List Str
  | 0, s => [s]
  | f + 1, s =>
    match breakAtSub sep s with
    | none => [s]
    | some (pre, post) => pre :: splitOnStrF sep f post

/-- Python's `str.split(sep)` for a (non-empty) multi-character separator. -/
def pySplitOn (sep s : Str) : List Str := splitOnStrF sep (s.length + 1) s

/-- Python's `sep.join(parts)`. -/
def pyJoin (sep : Str) : List Str → Str
  | [] => []
  | [x] => x
  | x :: y :: t => x ++ sep ++ pyJoin sep (y :: t)

/-- Lexicographic comparison of strings by character code (Python `<` on `str`). -/
def lexLt : Str → Str → Bool
  | [], [] => false
  | [], _ :: _ => true
  | _ :: _, [] => false
  | a :: as, b :: bs => a < b || (a = b && lexLt as bs)

/-!  A tiny matcher for the fixed regular-expression catalog of the program.

Every regex literal in the embedded code is a concatenation of
case-insensitive literals and greedily quantified single-character
classes (`\d+`, `\s*`, `[A-Z0-9\-]+`, `\d{1,2}`, ...), possibly with a
top-level alternation.  `RI` is one item of such a concatenation;
matching is greedy with backtracking, exactly as Python's `re` behaves
on these patterns. -/

/-- One item of a compiled pattern. -/
inductive RI
  /-- a literal run, matched case-insensitively (all patterns carry `re.IGNORECASE`) -/
  | lit : Str → RI
  /-- a character class repeated greedily between `lo` and `hi` times (`none` = unbounded) -/
  | cls : (Char → Bool) → Nat → Option Nat → RI

/-- Length of the maximal run of characters satisfying `p` at the front of `s`. -/
def maxRun (p : Char → Bool) : Str → Nat
  | [] => 0
  | c :: cs => if p c then maxRun p cs + 1 else 0

/-- Backtracking over the repetition count of a class: try `lo + e`, `lo + e - 1`, ..., `lo`. -/
def tryCnt (f : Str → Option Str) (s : Str) (lo : Nat) : Nat → Option Str
  | 0 => f (s.drop lo)
  | e + 1 =>
    match f (s.drop (lo + e + 1)) with
    | some r => some r
    | none => tryCnt f s lo e

/-- Match a compiled concatenation against a prefix of `s`; returns the rest on success. -/
def matchIs : List RI → Str → Option Str
  | [], s => some s
  | .lit l :: is, s => if startsWithCI l s then matchIs is (s.drop l.length) else none
  | .cls p lo hi :: is, s =>
    let run := maxRun p s
    let top := match hi with | some h => min run h | none => run
    if top < lo then none else tryCnt (fun t => matchIs is t) s lo (top - lo)

/-- A pattern: an ordered list of alternatives, each with the number of matched
characters to drop to obtain the capture group (0 when the group is the whole match). -/
abbrev RPat := List (List RI × Nat)

/-- Try the alternatives of a pattern, in order, at the current position. -/
def matchPat (pat : RPat) (s : Str) : Option (Nat × Str) :=
  match pat with
  | [] => none
  | (items, g) :: alts =>
    match matchIs items s with
    | some r => some (g, r)
    | none => matchPat alts s

/-- Python's `re.search`: does the pattern match at any position? -/
def reSearch (pat : RPat) : Str → Bool
  | [] => (matchPat pat []).isSome
  | c :: cs => (matchPat pat (c :: cs)).isSome || reSearch pat cs

/-- Fuelled worker for `reFindAll`: scan left to right, collect non-overlapping
capture groups, advance one character past positions that do not match (an
empty match at the very end is collected once and the scan stops). -/
def reFindAllF (pat : RPat) : Nat → Str → List Str
  | 0, _ => []
  | _ + 1, [] =>
    match matchPat pat [] with
    | some (g, _) => [(([] : Str)).drop g]
    | none => []
  | f + 1, c :: cs =>
    match matchPat pat (c :: cs) with
    | some (g, rest) =>
      let m := (c :: cs).take ((c :: cs).length - rest.length)
      if rest.length < (c :: cs).length then m.drop g :: reFindAllF pat f rest
      else m.drop g :: reFindAllF pat f cs
    | none => reFindAllF pat f cs

/-- Python's `re.findall` (the capture group of every non-overlapping match). -/
def reFindAll (pat : RPat) (s : Str) : List Str := reFindAllF pat (s.length + 1) s

/-- Worker for `dedupFirst`: `seen` holds the elements already emitted. -/
def dedupFirstGo (seen : List Str) : List Str → List Str
  | [] => []
  | x :: xs =>
    if seen.contains x then dedupFirstGo seen xs
    else x :: dedupFirstGo (x :: seen) xs

/-- Keep the first occurrence of every element (used where the code builds `list(set(...))`;
CPython's set order is unspecified, so any claim proved here is order-insensitive). -/
def dedupFirst (l : List Str) : List Str := dedupFirstGo [] l

/-! Character classes appearing in the catalog. -/

/-- ASCII letter (what `[A-Z]` / `[a-z]` match under `re.IGNORECASE`). -/
def isLetter (c : Char) : Bool := ('a' ≤ c && c ≤ 'z') || ('A' ≤ c && c ≤ 'Z')

/-- ASCII digit (`\d`). -/
def isDigitC (c : Char) : Bool := '0' ≤ c && c ≤ '9'

/-- `[A-Z0-9\-]` under `re.IGNORECASE`. -/
def isAlnumHyp (c : Char) : Bool := isLetter c || isDigitC c || c = '-'

/-- `[A-Z\s]` under `re.IGNORECASE`. -/
def isLetterOrSpace (c : Char) : Bool := isLetter c || isPySpace c

/-! Pattern catalog of `DocumentChunker.metadata_patterns`
(`document_processing/document_chunker.py`), compiled item by item. -/

/-- `statute_number`: `(\d+\.\d+[A-Z]*|\d+\s+U\.S\.C\.\s+\d+)`, `re.IGNORECASE`. -/
def statuteNumberPat : RPat :=
  [([.cls isDigitC 1 none, .lit ".".toList, .cls isDigitC 1 none, .cls isLetter 0 none], 0),
   ([.cls isDigitC 1 none, .cls isPySpace 1 none, .lit "U.S.C.".toList,
     .cls isPySpace 1 none, .cls isDigitC 1 none], 0)]

/-- `case_citation`: `([A-Z][a-z]+\s+v\.\s+[A-Z][a-z]+,\s+\d+[A-Z]+\s+\d+)`, `re.IGNORECASE`. -/
def caseCitationPat : RPat :=
  [([.cls isLetter 1 (some 1), .cls isLetter 1 none, .cls isPySpace 1 none,
     .lit "v.".toList, .cls isPySpace 1 none, .cls isLetter 1 (some 1),
     .cls isLetter 1 none, .lit ",".toList, .cls isPySpace 1 none,
     .cls isDigitC 1 none, .cls isLetter 1 none, .cls isPySpace 1 none,
     .cls isDigitC 1 none], 0)]

/-- `date`: `(\d{1,2}/\d{1,2}/\d{4}|\d{4}-\d{2}-\d{2})`, `re.IGNORECASE`. -/
def datePat : RPat :=
  [([.cls isDigitC 1 (some 2), .lit "/".toList, .cls isDigitC 1 (some 2),
     .lit "/".toList, .cls isDigitC 4 (some 4)], 0),
   ([.cls isDigitC 4 (some 4), .lit "-".toList, .cls isDigitC 2 (some 2),
     .lit "-".toList, .cls isDigitC 2 (some 2)], 0)]

/-- `DocumentChunker._extract_statute_numbers`. -/
def extract_statute_numbers (text : Str) : List Str := reFindAll statuteNumberPat text

/-- `DocumentChunker._extract_case_citations`. -/
def extract_case_citations (text : Str) : List Str := reFindAll caseCitationPat text

/-- `DocumentChunker._extract_dates`. -/
def extract_dates (text : Str) : List Str := reFindAll datePat text

/-! Citation patterns of `CitationChainManager` (`rag_system/advanced_rag_system.py`).
The first three alternatives capture only the statute number after the literal
cue, hence the capture-drop counts. -/

/-- `CitationChainManager.citation_patterns`, in source order. -/
def citation_patterns : List RPat :=
  [ [([.lit "see also § ".toList, .cls isDigitC 1 none, .lit ".".toList,
      .cls isDigitC 1 none], "see also § ".toList.length)],
    [([.lit "see § ".toList, .cls isDigitC 1 none, .lit ".".toList,
      .cls isDigitC 1 none], "see § ".toList.length)],
    [([.lit "cf. § ".toList, .cls isDigitC 1 none, .lit ".".toList,
      .cls isDigitC 1 none], "cf. § ".toList.length)],
    [([.cls isDigitC 1 none, .lit ".".toList, .cls isDigitC 1 none,
      .cls isLetter 0 none], 0)],
    [([.cls isDigitC 1 none, .cls isPySpace 1 none, .lit "U.S.C.".toList,
      .cls isPySpace 1 none, .cls isDigitC 1 none], 0)],
    [([.cls isLetter 1 (some 1), .cls isLetter 1 none, .cls isPySpace 1 none,
      .lit "v.".toList, .cls isPySpace 1 none, .cls isLetter 1 (some 1),
      .cls isLetter 1 none], 0)] ]

/-- `CitationChainManager.extract_citations`: every pattern's matches, deduplicated.
The source builds `list(set(citations))`, whose order CPython leaves unspecified;
we fix first-occurrence order, and no claim below depends on it. -/
def extract_citations (text : Str) : List Str :=
  dedupFirst (citation_patterns.foldl (fun acc p => acc ++ reFindAll p text) [])

/-! Word-boundary literal substitution: `re.sub(rf'\b{re.escape(lit)}\b', rep, s,
flags=re.IGNORECASE)`.  `re.escape` makes the pattern a literal; `\b` holds at a
position iff exactly one of its two neighbouring characters is a word character. -/

/-- Does `\b` hold between a previous character (`none` at the edges) and `next`? -/
def atBoundary (prev : Option Char) (next : Option Char) : Bool :=
  (match prev with | some c => isWordChar c | none => false) ≠
  (match next with | some c => isWordChar c | none => false)

/-- Fuelled worker for `subWordBound`; `prev` is the character before the scan point.
Word-character tests on the matched region use the pattern's characters, which agree
with the source's characters on `isWordChar` (case-insensitive matching only folds
letter case, and letters of either case are word characters). -/
def subWordBoundF (lit rep : Str) : Nat → Option Char → Str → Str
  | 0, _, s => s
  | _ + 1, _, [] => []
  | f + 1, prev, c :: cs =>
    let s := c :: cs
    if startsWithCI lit s
        && atBoundary prev lit.head?
        && atBoundary lit.getLast? (s.drop lit.length).head?
    then rep ++ subWordBoundF lit rep f (lit.getLast?.orElse (fun _ => some c)) (s.drop lit.length)
    else c :: subWordBoundF lit rep f (some c) cs

/-- `re.sub(rf'\b{re.escape(lit)}\b', rep, s, flags=re.IGNORECASE)` for a literal `lit`. -/
def subWordBound (lit rep s : Str) : Str := subWordBoundF lit rep (s.length + 1) none s

/-! `LegalQueryEnhancer` (`rag_system/advanced_rag_system.py`): the three fixed
tables, in dict-literal order, and `expand_query`. -/

/-- `LegalQueryEnhancer.legal_synonyms`. -/
def legal_synonyms : List (Str × List Str) :=
  [("search".toList, ["search".toList, "seizure".toList, "inspection".toList,
      "examination".toList, "investigation".toList]),
   ("warrant".toList, ["warrant".toList, "court order".toList,
      "judicial authorization".toList, "search warrant".toList]),
   ("evidence".toList, ["evidence".toList, "proof".toList, "testimony".toList,
      "documentation".toList, "exhibit".toList]),
   ("privacy".toList, ["privacy".toList, "confidentiality".toList, "secrecy".toList,
      "protection".toList, "right to privacy".toList]),
   ("digital".toList, ["digital".toList, "electronic".toList, "computer".toList,
      "online".toList, "cyber".toList, "virtual".toList]),
   ("amendment".toList, ["amendment".toList, "constitutional right".toList,
      "bill of rights".toList]),
   ("statute".toList, ["statute".toList, "law".toList, "code".toList,
      "regulation".toList, "ordinance".toList]),
   ("case".toList, ["case".toList, "decision".toList, "ruling".toList,
      "opinion".toList, "precedent".toList]),
   ("court".toList, ["court".toList, "tribunal".toList, "judiciary".toList,
      "bench".toList]),
   ("law enforcement".toList, ["law enforcement".toList, "police".toList,
      "officer".toList, "detective".toList, "investigator".toList]),
   ("criminal".toList, ["criminal".toList, "felony".toList, "misdemeanor".toList,
      "offense".toList, "crime".toList]),
   ("civil".toList, ["civil".toList, "civilian".toList, "private".toList,
      "non-criminal".toList]),
   ("federal".toList, ["federal".toList, "national".toList, "U.S.".toList,
      "United States".toList]),
   ("state".toList, ["state".toList, "local".toList, "municipal".toList,
      "county".toList]),
   ("supreme court".toList, ["supreme court".toList, "SCOTUS".toList,
      "U.S. Supreme Court".toList]),
   ("appeals court".toList, ["appeals court".toList, "circuit court".toList,
      "appellate court".toList]),
   ("district court".toList, ["district court".toList, "trial court".toList,
      "federal district court".toList])]

/-- `LegalQueryEnhancer.abbreviations`. -/
def abbreviationTable : List (Str × Str) :=
  [("LEO".toList, "Law Enforcement Officer".toList),
   ("DOJ".toList, "Department of Justice".toList),
   ("FBI".toList, "Federal Bureau of Investigation".toList),
   ("DEA".toList, "Drug Enforcement Administration".toList),
   ("ATF".toList, "Bureau of Alcohol, Tobacco, Firearms and Explosives".toList),
   ("ICE".toList, "Immigration and Customs Enforcement".toList),
   ("DHS".toList, "Department of Homeland Security".toList),
   ("USC".toList, "United States Code".toList),
   ("CFR".toList, "Code of Federal Regulations".toList),
   ("SCOTUS".toList, "Supreme Court of the United States".toList),
   ("F.R.C.P.".toList, "Federal Rules of Civil Procedure".toList),
   ("F.R.Cr.P.".toList, "Federal Rules of Criminal Procedure".toList),
   ("F.R.E.".toList, "Federal Rules of Evidence".toList),
   ("4th Am.".toList, "Fourth Amendment".toList),
   ("5th Am.".toList, "Fifth Amendment".toList),
   ("6th Am.".toList, "Sixth Amendment".toList),
   ("8th Am.".toList, "Eighth Amendment".toList),
   ("14th Am.".toList, "Fourteenth Amendment".toList),
   ("v.".toList, "versus".toList),
   ("et al.".toList, "and others".toList),
   ("e.g.".toList, "for example".toList),
   ("i.e.".toList, "that is".toList),
   ("cf.".toList, "compare".toList),
   ("see also".toList, "see also".toList),
   ("supra".toList, "above".toList),
   ("infra".toList, "below".toList)]

/-- `LegalQueryEnhancer.spell_corrections`. -/
def spell_corrections : List (Str × Str) :=
  [("amendmant".toList, "amendment".toList),
   ("ammendment".toList, "amendment".toList),
   ("constititional".toList, "constitutional".toList),
   ("constituional".toList, "constitutional".toList),
   ("jurisdiciton".toList, "jurisdiction".toList),
   ("jurisdicition".toList, "jurisdiction".toList),
   ("statutue".toList, "statute".toList),
   ("statutte".toList, "statute".toList),
   ("warrrant".toList, "warrant".toList),
   ("warrantt".toList, "warrant".toList),
   ("evidance".toList, "evidence".toList),
   ("evidense".toList, "evidence".toList),
   ("privacey".toList, "privacy".toList),
   ("privicy".toList, "privacy".toList),
   ("digitial".toList, "digital".toList),
   ("digtial".toList, "digital".toList),
   ("enforcment".toList, "enforcement".toList),
   ("enforcemnt".toList, "enforcement".toList),
   ("investigation".toList, "investigation".toList),
   ("investigaton".toList, "investigation".toList),
   ("criminial".toList, "criminal".toList),
   ("crimnal".toList, "criminal".toList),
   ("federral".toList, "federal".toList),
   ("fedral".toList, "federal".toList),
   ("supreem".toList, "supreme".toList),
   ("supreme".toList, "supreme".toList),
   ("appelate".toList, "appellate".toList),
   ("appellate".toList, "appellate".toList),
   ("distric".toList, "district".toList),
   ("distrct".toList, "district".toList)]

/-- `QueryEnhancement` (dataclass). -/
structure QueryEnhancement where
  originalQuery : Str
  expandedTerms : List Str
  legalSynonyms : List Str
  correctedTerms : List Str
  abbreviationsFound : List (Str × Str)
  enhancedQuery : Str
deriving DecidableEq

/-- Abbreviation pass of `expand_query`: the guard tests the original lowered
query, the substitution rewrites the evolving `expanded_query`. -/
def abbrevPass (queryLower : Str) : List (Str × Str) → Str → List (Str × Str) → Str × List (Str × Str)
  | [], expanded, found => (expanded, found)
  | (ab, full) :: rest, expanded, found =>
    if pyIn (pyLower ab) queryLower then
      abbrevPass queryLower rest (subWordBound ab full expanded) (found ++ [(ab, full)])
    else abbrevPass queryLower rest expanded found

/-- Spell-correction pass of `expand_query`. -/
def spellPass (queryLower : Str) : List (Str × Str) → Str → List Str → Str × List Str
  | [], expanded, corrected => (expanded, corrected)
  | (mis, corr) :: rest, expanded, corrected =>
    if pyIn mis queryLower then
      spellPass queryLower rest (subWordBound mis corr expanded)
        (corrected ++ [mis ++ " -> ".toList ++ corr])
    else spellPass queryLower rest expanded corrected

/-- Synonym pass of `expand_query`: collect all synonyms of matched terms, and
append (at most the first two per term) those not already present in the query. -/
def synonymPass (queryLower : Str) : List (Str × List Str) → List Str × List Str
  | [] => ([], [])
  | (term, syns) :: rest =>
    let (legal, terms) := synonymPass queryLower rest
    if pyIn term queryLower then
      (syns ++ legal,
       ((syns.take 2).filter (fun syn => !(pyIn syn queryLower))) ++ terms)
    else (legal, terms)

/-- `LegalQueryEnhancer.expand_query`. -/
def expand_query (query : Str) : QueryEnhancement :=
  let queryLower := pyLower query
  let (expanded1, found) := abbrevPass queryLower abbreviationTable query []
  let (expanded2, corrected) := spellPass queryLower spell_corrections expanded1 []
  let (legal, terms) := synonymPass queryLower legal_synonyms
  let enhanced :=
    if terms.isEmpty then expanded2
    else expanded2 ++ " ".toList ++ pyJoin " ".toList (terms.take 5)
  { originalQuery := query, expandedTerms := terms, legalSynonyms := legal,
    correctedTerms := corrected, abbreviationsFound := found, enhancedQuery := enhanced }

/-! `HybridSearchEngine` (`rag_system/advanced_rag_system.py`).  The vector
database is an external collaborator: the responses of
`search_legal_documents` (semantic) and of the per-token
`search_by_statute` / `search_by_case_citation` calls (keyword, already
concatenated in source order) are inputs of the embedded `search`. -/

/-- A chunk's metadata as stored in the index (`metadata.get` with defaults). -/
structure ChunkMeta where
  content : Option Str
  chunkType : Option Str
deriving DecidableEq

/-- A raw match returned by the vector database (`result.id`, `result.score`,
`result.metadata`). -/
structure RawResult where
  id : Str
  score : Rat
  metadata : ChunkMeta
deriving DecidableEq

/-- The five stored relevance factors of a `SearchResult`, in dict-literal order. -/
structure RelevanceFactors where
  semanticScore : Rat
  keywordScore : Rat
  jurisdictionScore : Rat
  lawStatusScore : Rat
  documentTypeScore : Rat
deriving DecidableEq

/-- `SearchResult` (dataclass). -/
structure SearchResult where
  content : Str
  score : Rat
  metadata : ChunkMeta
  relevanceFactors : RelevanceFactors
  citationChain : List Str
  jurisdiction : Str
  lawStatus : Str
  documentType : Str
deriving DecidableEq

/-- `HybridSearchEngine.relevance_weights` (dict values, in order). -/
def relevance_weights : List (String × Rat) :=
  [("semantic_score", 0.4), ("keyword_match", 0.3), ("jurisdiction_relevance", 0.15),
   ("law_status", 0.1), ("document_type", 0.05)]

/-- Look up a weight (total on the fixed table). -/
def weightOf (k : String) : Rat :=
  match relevance_weights.find? (fun e => e.1 = k) with
  | some e => e.2
  | none => 0

/-- Python-dict insert used for semantic results: overwrite in place or append. -/
def dinsert (m : List RawResult) (r : RawResult) : List RawResult :=
  if m.any (fun x => x.id = r.id) then m.map (fun x => if x.id = r.id then r else x)
  else m ++ [r]

/-- Python-dict insert used for keyword results: overwrite only on a higher score. -/
def dinsertIfBetter (m : List RawResult) (r : RawResult) : List RawResult :=
  if m.any (fun x => x.id = r.id) then
    m.map (fun x => if x.id = r.id then (if r.score > x.score then r else x) else x)
  else m ++ [r]

/-- `HybridSearchEngine._combine_results`: a dict keyed by chunk id, in insertion
order; keyword results override semantic ones only with a higher score. -/
def combine_results (semanticResults keywordResults : List RawResult) : List RawResult :=
  keywordResults.foldl dinsertIfBetter (semanticResults.foldl dinsert [])

/-- Sum of 1 per query term contained in the content plus 0.5 per expanded term
contained in the content (the `matches` accumulator). -/
def keywordMatches (contentLower : Str) (queryTerms expandedTerms : List Str) : Rat :=
  (queryTerms.countP (fun t => pyIn t contentLower) : Rat) +
    (1 / 2) * (expandedTerms.countP (fun t => pyIn (pyLower t) contentLower) : Rat)

/-- `HybridSearchEngine._calculate_keyword_score`.  Returns `none` when the
query has no whitespace tokens: the source divides by `len(query_terms)` and
raises `ZeroDivisionError`. -/
def calculate_keyword_score (query : Str) (enhanced : QueryEnhancement)
    (metadata : ChunkMeta) : Option Rat :=
  let content := pyLower (metadata.content.getD [])
  let queryTerms := pyTokens (pyLower query)
  if queryTerms.length = 0 then none
  else some (min (keywordMatches content queryTerms enhanced.expandedTerms
      / (queryTerms.length : Rat)) 1)

/-- The federal indicator phrases of `_calculate_jurisdiction_score`. -/
def federal_indicators : List Str :=
  ["federal".toList, "u.s.".toList, "united states".toList, "congress".toList,
   "supreme court".toList]

/-- The state indicator phrases of `_calculate_jurisdiction_score`. -/
def state_indicators : List Str :=
  ["state".toList, "local".toList, "municipal".toList, "county".toList]

/-- `HybridSearchEngine._calculate_jurisdiction_score`. -/
def calculate_jurisdiction_score (metadata : ChunkMeta) (targetJurisdiction : Str) : Rat :=
  let content := pyLower (metadata.content.getD [])
  if targetJurisdiction = "federal".toList then
    max (1 / 2) ((federal_indicators.countP (fun t => pyIn t content) : Rat)
      / (federal_indicators.length : Rat))
  else if targetJurisdiction = "state".toList then
    max (1 / 2) ((state_indicators.countP (fun t => pyIn t content) : Rat)
      / (state_indicators.length : Rat))
  else 1 / 2

/-- `HybridSearchEngine._calculate_law_status_score`. -/
def calculate_law_status_score (metadata : ChunkMeta) : Rat :=
  let content := pyLower (metadata.content.getD [])
  let currentCount := ["current".toList, "effective".toList, "active".toList,
    "valid".toList].countP (fun t => pyIn t content)
  let supersededCount := ["superseded".toList, "repealed".toList, "amended".toList,
    "replaced".toList, "obsolete".toList].countP (fun t => pyIn t content)
  if supersededCount > currentCount then 3 / 10
  else if currentCount > supersededCount then 1
  else 7 / 10

/-- The `type_scores` table of `_calculate_document_type_score`. -/
def type_scores : List (Str × Rat) :=
  [("case_law_section".toList, 1), ("policy_section".toList, 0.8),
   ("training_module".toList, 0.6), ("general".toList, 0.5)]

/-- `HybridSearchEngine._calculate_document_type_score`. -/
def calculate_document_type_score (metadata : ChunkMeta) : Rat :=
  let docType := metadata.chunkType.getD "unknown".toList
  match type_scores.find? (fun e => e.1 = docType) with
  | some e => e.2
  | none => 0.5

/-- The Wisconsin indicator phrases of `_determine_jurisdiction`. -/
def wisconsin_indicators : List Str :=
  ["wisconsin".toList, "state of wisconsin".toList, "wi statutes".toList,
   "wisconsin statutes".toList, "state sovereignty".toList,
   "state jurisdiction".toList, "chapter 1 sovereignty".toList]

/-- `HybridSearchEngine._determine_jurisdiction`. -/
def determine_jurisdiction (metadata : ChunkMeta) : Str :=
  let content := pyLower (metadata.content.getD [])
  if wisconsin_indicators.any (fun t => pyIn t content) then "state".toList
  else if federal_indicators.any (fun t => pyIn t content) then "federal".toList
  else if state_indicators.any (fun t => pyIn t content) then "state".toList
  else "unknown".toList

/-- `HybridSearchEngine._determine_law_status`. -/
def determine_law_status (metadata : ChunkMeta) : Str :=
  let content := pyLower (metadata.content.getD [])
  if ["superseded".toList, "repealed".toList, "amended".toList].any
      (fun t => pyIn t content) then "superseded".toList
  else if ["pending".toList, "proposed".toList, "draft".toList].any
      (fun t => pyIn t content) then "pending".toList
  else "current".toList

/-- The body of `_apply_relevance_scoring`'s loop for one merged result. -/
def scoreOne (result : RawResult) (query : Str) (enhanced : QueryEnhancement)
    (jurisdiction : Str) : Option SearchResult :=
  match calculate_keyword_score query enhanced result.metadata with
  | none => none
  | some keywordScore =>
    let semanticScore := result.score
    let jurisdictionScore := calculate_jurisdiction_score result.metadata jurisdiction
    let lawStatusScore := calculate_law_status_score result.metadata
    let documentTypeScore := calculate_document_type_score result.metadata
    let finalScore :=
      semanticScore * weightOf "semantic_score" +
      keywordScore * weightOf "keyword_match" +
      jurisdictionScore * weightOf "jurisdiction_relevance" +
      lawStatusScore * weightOf "law_status" +
      documentTypeScore * weightOf "document_type"
    some
      { content := result.metadata.content.getD []
        score := finalScore
        metadata := result.metadata
        relevanceFactors :=
          { semanticScore := semanticScore, keywordScore := keywordScore,
            jurisdictionScore := jurisdictionScore, lawStatusScore := lawStatusScore,
            documentTypeScore := documentTypeScore }
        citationChain := extract_citations (result.metadata.content.getD [])
        jurisdiction := determine_jurisdiction result.metadata
        lawStatus := determine_law_status result.metadata
        documentType := result.metadata.chunkType.getD "unknown".toList }

/-- `HybridSearchEngine._apply_relevance_scoring`: score every merged result in
order; a `ZeroDivisionError` in the keyword score aborts the whole search. -/
def apply_relevance_scoring (results : List RawResult) (query : Str)
    (enhanced : QueryEnhancement) (jurisdiction : Str) : Option (List SearchResult) :=
  match results with
  | [] => some []
  | r :: rs =>
    match scoreOne r query enhanced jurisdiction with
    | none => none
    | some sr =>
      match apply_relevance_scoring rs query enhanced jurisdiction with
      | none => none
      | some srs => some (sr :: srs)

/-- Stable descending insertion: an earlier element stays before a later one of
equal score, exactly like Python's stable `list.sort(key=..., reverse=True)`. -/
def insertDesc (x : SearchResult) : List SearchResult → List SearchResult
  | [] => [x]
  | y :: ys => if x.score ≥ y.score then x :: y :: ys else y :: insertDesc x ys

/-- Stable sort by final score, descending (`scored_results.sort(key=lambda x:
x.score, reverse=True)`). -/
def sortByScoreDesc : List SearchResult → List SearchResult
  | [] => []
  | x :: xs => insertDesc x (sortByScoreDesc xs)

/-- `HybridSearchEngine.search`, with the two vector-database responses as
inputs: enhance, merge, score, sort descending by final score, truncate. -/
def search (semanticResults keywordResults : List RawResult) (query : Str)
    (jurisdiction : Str) (maxResults : Nat) : Option (List SearchResult) :=
  let enhanced := expand_query query
  let combined := combine_results semanticResults keywordResults
  match apply_relevance_scoring combined query enhanced jurisdiction with
  | none => none
  | some scored => some ((sortByScoreDesc scored).take maxResults)

/-! `ContextWindowManager` (`rag_system/advanced_rag_system.py`). -/

/-- `ContextWindowManager._build_citation_context`: at most five citations,
one `- citation` line each. -/
def build_citation_context (citations : List Str) : Str :=
  if citations.isEmpty then []
  else pyJoin "\n".toList ((citations.take 5).map (fun c => "- ".toList ++ c))

/-- The result-packing loop of `build_context_window`: add full contents while
they fit, then possibly one truncated content (if more than 100 characters
remain), then stop.  Returns the parts and the final `current_length`, which
counts only the full contents. -/
def packLoop (maxLen : Nat) : List SearchResult → Nat → List Str × Nat
  | [], cur => ([], cur)
  | r :: rs, cur =>
    let content := r.content
    if cur + content.length ≤ maxLen then
      let (ps, cur2) := packLoop maxLen rs (cur + content.length)
      (content :: ps, cur2)
    else
      let remaining := maxLen - cur
      (if remaining > 100 then [content.take remaining ++ "...".toList] else [], cur)

/-- `ContextWindowManager.build_context_window`. -/
def build_context_window (maxContextLength : Nat) (primaryResults : List SearchResult)
    (_query : Str) : Str :=
  let (parts, currentLength) := packLoop maxContextLength primaryResults 0
  let allCitations := primaryResults.foldl (fun acc r => acc ++ r.citationChain) []
  let parts2 :=
    if allCitations.isEmpty then parts
    else
      let citationContext := build_citation_context allCitations
      if currentLength + citationContext.length ≤ maxContextLength then
        parts ++ ["\n\nRelated Citations:\n".toList ++ citationContext]
      else parts
  pyJoin "\n\n".toList parts2

/-! `DocumentChunker._chunk_case_law` (`document_processing/document_chunker.py`). -/

/-- The per-chunk metadata dict of the case-law strategy. -/
structure CaseLawMeta where
  sectionType : Str
  statuteNumbers : List Str
  caseCitations : List Str
  dates : List Str
deriving DecidableEq

/-- One produced chunk. -/
structure CaseLawChunk where
  content : Str
  metadata : CaseLawMeta
  chunkType : Str
  startLine : Int
  endLine : Int
deriving DecidableEq

/-- `re.match(r'^(OPINION|DISSENT|CONCURRENCE)', line, re.IGNORECASE)`. -/
def isCourtOpinionLine (line : Str) : Bool :=
  startsWithCI "OPINION".toList line || startsWithCI "DISSENT".toList line
    || startsWithCI "CONCURRENCE".toList line

/-- Metadata extracted from a section-marker line. -/
def newSectionMeta (line : Str) : CaseLawMeta :=
  { sectionType := line
    statuteNumbers := extract_statute_numbers line
    caseCitations := extract_case_citations line
    dates := extract_dates line }

/-- Metadata extension performed for every non-marker line. -/
def extendMeta (m : CaseLawMeta) (line : Str) : CaseLawMeta :=
  { m with
    statuteNumbers := m.statuteNumbers ++ extract_statute_numbers line
    caseCitations := m.caseCitations ++ extract_case_citations line
    dates := m.dates ++ extract_dates line }

/-- `enumerate`: pair every element with its index, starting at `i`. -/
def enumF (i : Nat) : List α → List (Nat × α)
  | [] => []
  | x :: xs => (i, x) :: enumF (i + 1) xs

/-- Build one emitted chunk record (`chunk_type` is always `case_law_section`). -/
def mkCaseLawChunk (content : Str) (md : CaseLawMeta) (startLine endLine : Int) :
    CaseLawChunk :=
  { content := content, metadata := md, chunkType := "case_law_section".toList,
    startLine := startLine, endLine := endLine }

/-- The loop of `_chunk_case_law` over the enumerated lines; `cur` is
`current_chunk`, `md` is `current_metadata`, `acc` the emitted chunks,
`totalLines` the line count used by the final-chunk bookkeeping. -/
def chunkCaseLawGo (chunkSize chunkOverlap totalLines : Nat) :
    List (Nat × Str) → Str → CaseLawMeta → List CaseLawChunk → List CaseLawChunk
  | [], cur, md, acc =>
    if (pyStrip cur).isEmpty then acc
    else
      acc ++ [mkCaseLawChunk (pyStrip cur) md
        ((totalLines : Int) - ((splitChar '\n' cur).length : Int)) ((totalLines : Int) - 1)]
  | (i, rawLine) :: rest, cur, md, acc =>
    let line := pyStrip rawLine
    if line.isEmpty then chunkCaseLawGo chunkSize chunkOverlap totalLines rest cur md acc
    else if isCourtOpinionLine line then
      let acc2 :=
        if (pyStrip cur).isEmpty then acc
        else
          acc ++ [mkCaseLawChunk (pyStrip cur) md
            ((i : Int) - ((splitChar '\n' cur).length : Int)) ((i : Int) - 1)]
      chunkCaseLawGo chunkSize chunkOverlap totalLines rest (line ++ ['\n'])
        (newSectionMeta line) acc2
    else
      let cur2 := cur ++ line ++ ['\n']
      let md2 := extendMeta md line
      if cur2.length > chunkSize then
        let sentences := pySplitOn ". ".toList cur2
        if sentences.length > 1 then
          let lastSentence := sentences.getLastD []
          let overlapText := if lastSentence.length < chunkOverlap then lastSentence else []
          let chunkContent := pyJoin ". ".toList sentences.dropLast ++ ".".toList
          let acc2 :=
            acc ++ [mkCaseLawChunk (pyStrip chunkContent) md2
              ((i : Int) - ((splitChar '\n' chunkContent).length : Int)) ((i : Int) - 1)]
          chunkCaseLawGo chunkSize chunkOverlap totalLines rest
            (overlapText ++ ['\n'] ++ line ++ ['\n']) md2 acc2
        else
          let acc2 :=
            acc ++ [mkCaseLawChunk (pyStrip cur2) md2
              ((i : Int) - ((splitChar '\n' cur2).length : Int)) ((i : Int) - 1)]
          chunkCaseLawGo chunkSize chunkOverlap totalLines rest (line ++ ['\n']) md2 acc2
      else chunkCaseLawGo chunkSize chunkOverlap totalLines rest cur2 md2 acc

def chunk_case_law (chunkSize chunkOverlap : Nat) (textContent : Str) : List CaseLawChunk :=
  let lines := splitChar '\n' textContent
  chunkCaseLawGo chunkSize chunkOverlap lines.length (enumF 0 lines) []
    { sectionType := [], statuteNumbers := [], caseCitations := [], dates := [] } []

/-! `DocumentProcessor` (`document_processing/document_processor.py`):
`document_patterns` and `_detect_document_type`. -/

/-- Keywords and compiled patterns of `document_patterns['case_law']`. -/
def caseLawKeywords : List Str :=
  ["case".toList, "court".toList, "judgment".toList, "opinion".toList,
   "appeal".toList, "petitioner".toList, "respondent".toList]

/-- `document_patterns['case_law']['patterns']`. -/
def caseLawPatterns : List RPat :=
  [ [([.lit "Case No".toList, .cls (fun c => c = '.') 0 (some 1),
      .cls isPySpace 0 none, .cls isAlnumHyp 1 none], 0)],
    [([.lit "In the ".toList, .cls isLetterOrSpace 1 none, .lit " Court".toList], 0)],
    [([.lit "Opinion of the Court".toList], 0)],
    [([.lit "Filed".toList, .cls isPySpace 1 none, .cls isDigitC 1 (some 2),
      .lit "/".toList, .cls isDigitC 1 (some 2), .lit "/".toList,
      .cls isDigitC 4 (some 4)], 0)] ]

/-- Keywords of `document_patterns['policy']`. -/
def policyKeywords : List Str :=
  ["policy".toList, "procedure".toList, "guideline".toList, "regulation".toList,
   "standard".toList, "protocol".toList]

/-- `document_patterns['policy']['patterns']`. -/
def policyPatterns : List RPat :=
  [ [([.lit "Policy".toList, .cls isPySpace 1 none, .lit "No".toList,
      .cls (fun c => c = '.') 0 (some 1), .cls isPySpace 0 none,
      .cls isAlnumHyp 1 none], 0)],
    [([.lit "Effective Date:".toList, .cls isPySpace 0 none, .cls isDigitC 1 (some 2),
      .lit "/".toList, .cls isDigitC 1 (some 2), .lit "/".toList,
      .cls isDigitC 4 (some 4)], 0)],
    [([.lit "Department".toList, .cls isPySpace 1 none, .lit "Policy".toList], 0)],
    [([.lit "Standard Operating Procedure".toList], 0)] ]

/-- Keywords of `document_patterns['training']`. -/
def trainingKeywords : List Str :=
  ["training".toList, "course".toList, "module".toList, "lesson".toList,
   "instruction".toList, "education".toList]

/-- `document_patterns['training']['patterns']`. -/
def trainingPatterns : List RPat :=
  [ [([.lit "Training".toList, .cls isPySpace 1 none, .lit "Module".toList,
      .cls isPySpace 0 none, .cls isDigitC 1 none], 0)],
    [([.lit "Course".toList, .cls isPySpace 1 none, .lit "Objective".toList], 0)],
    [([.lit "Learning".toList, .cls isPySpace 1 none, .lit "Outcome".toList], 0)],
    [([.lit "Training".toList, .cls isPySpace 1 none, .lit "Material".toList], 0)] ]

/-- `DocumentProcessor.document_patterns`, in dict-literal order. -/
def document_patterns : List (Str × List Str × List RPat) :=
  [("case_law".toList, caseLawKeywords, caseLawPatterns),
   ("policy".toList, policyKeywords, policyPatterns),
   ("training".toList, trainingKeywords, trainingPatterns)]

/-- The per-type score: 1 per keyword contained in the lowered text, 2 per
pattern found in the raw text. -/
def docTypeScore (textContent textLower : Str) (kws : List Str) (pats : List RPat) : Nat :=
  kws.countP (fun k => pyIn k textLower) + 2 * pats.countP (fun p => reSearch p textContent)

/-- Python's `max(scores, key=scores.get)`: the first key attaining the maximum. -/
def pyMaxKey : List (Str × Nat) → Str
  | [] => []
  | x :: xs => (xs.foldl (fun best kv => if kv.2 > best.2 then kv else best) x).1

/-- `DocumentProcessor._detect_document_type`.  The `scores` dict always has
the three fixed keys, so the `if scores:` guard always takes the first branch. -/
def detect_document_type (textContent : Str) : Str :=
  let textLower := pyLower textContent
  let scores := document_patterns.map
    (fun e => (e.1, docTypeScore textContent textLower e.2.1 e.2.2))
  if !scores.isEmpty then pyMaxKey scores else "general".toList

/-! `LangChainLegalRAGChatbot._calculate_confidence_score`
(`chatbot/langchain_rag_chatbot.py`) and the `relevance_breakdown` it reads,
produced by `AdvancedLegalRAG._get_relevance_breakdown`
(`rag_system/advanced_rag_system.py`). -/

/-- `SearchResult.relevance_factors` as the key/value pairs of its dict literal. -/
def factorPairs (f : RelevanceFactors) : List (String × Rat) :=
  [("semantic_score", f.semanticScore), ("keyword_score", f.keywordScore),
   ("jurisdiction_score", f.jurisdictionScore), ("law_status_score", f.lawStatusScore),
   ("document_type_score", f.documentTypeScore)]

/-- `defaultdict(list)` accumulation: append to the key's list, keys in first-seen order. -/
def addFactor (m : List (String × List Rat)) (kv : String × Rat) : List (String × List Rat) :=
  if m.any (fun e => e.1 = kv.1) then
    m.map (fun e => if e.1 = kv.1 then (e.1, e.2 ++ [kv.2]) else e)
  else m ++ [(kv.1, [kv.2])]

/-- Sum of a list of rationals. -/
def ratSum : List Rat → Rat
  | [] => 0
  | x :: xs => x + ratSum xs

/-- `AdvancedLegalRAG._get_relevance_breakdown`: per-factor averages across results. -/
def get_relevance_breakdown (results : List SearchResult) : List (String × Rat) :=
  if results.isEmpty then []
  else
    let factors := results.foldl (fun m r => (factorPairs r.relevanceFactors).foldl addFactor m) []
    factors.map (fun e => (e.1, ratSum e.2 / (e.2.length : Rat)))

/-- Python's `dict.get(key, default)` on an association list. -/
def pyGetQ (m : List (String × Rat)) (k : String) (d : Rat) : Rat :=
  match m.find? (fun e => e.1 = k) with
  | some e => e.2
  | none => d

/-- The fields of the `ask_question` response that the confidence computation reads. -/
structure RagResponse where
  topScore : Rat
  totalResults : Nat
  relevanceBreakdown : List (String × Rat)

/-- `LangChainLegalRAGChatbot._calculate_confidence_score`. -/
def calculate_confidence_score (r : RagResponse) : Rat :=
  let base0 := min r.topScore 1
  let base1 :=
    if r.totalResults ≥ 5 then base0 * 1.1
    else if r.totalResults < 2 then base0 * 0.8
    else base0
  let base2 :=
    if pyGetQ r.relevanceBreakdown "semantic_similarity" 0 > 0.8 then base1 * 1.05 else base1
  let base3 :=
    if pyGetQ r.relevanceBreakdown "keyword_matching" 0 > 0.8 then base2 * 1.05 else base2
  let base4 :=
    if pyGetQ r.relevanceBreakdown "citation_relevance" 0 < 0.5 then base3 * 0.9 else base3
  min base4 1

/-! `flask_server/app.py`: the `/api/chat` request validation, and the task
lifecycle of `upload_document` / `process_document_background`. -/

/-- A JSON request body for `/api/chat`, as the fields the validation reads:
`none` models a missing or null body. -/
def chatRequestAccepted (body : Option (List (String × String))) : Bool :=
  match body with
  | none => false
  | some data => !data.isEmpty && data.any (fun e => e.1 = "question")

/-- Task status values written to `background_tasks[task_id]['status']`. -/
inductive TaskStatus
  | uploaded
  | processing
  | completed
  | failed
deriving DecidableEq

/-- The observable outcome of `document_processor.process_document` inside the
worker: an exception, or a returned value — `none` for a falsy result, `some b`
for a truthy dict where `b` says whether it has a `chunk_count` key. -/
inductive ProcOutcome
  | raised : String → ProcOutcome
  | returned : Option Bool → ProcOutcome

/-- The sequence of statuses `process_document_background` writes to its task,
in program order, as a function of the processing outcome. -/
def worker_status_writes : ProcOutcome → List TaskStatus
  | .returned (some true) => [.processing, .completed]
  | .returned (some false) => [.processing, .failed]
  | .returned none => [.processing, .failed]
  | .raised _ => [.processing, .failed]

/-- The full status history of one ingestion task: `upload_document` records
`uploaded` at creation, then the single background worker owns every later write. -/
def task_status_trace (o : ProcOutcome) : List TaskStatus :=
  .uploaded :: worker_status_writes o

/-- Rank of a status in the lifecycle order. -/
def statusRank : TaskStatus → Nat
  | .uploaded => 0
  | .processing => 1
  | .completed => 2
  | .failed => 2

/-! Specification-side ordering for the sort claim.  The spec prescribes a
tie-break that `search` does not implement, so we give a second definition
that follows the spec's words — sort by final score descending, then by
semantic score descending, then by chunk id in lexicographic order — and
compare the two on concrete inputs. -/

/-- Score every merged result, keeping its chunk id alongside. -/
def scoreAllWithIds (results : List RawResult) (query : Str)
    (enhanced : QueryEnhancement) (jurisdiction : Str) :
    Option (List (Str × SearchResult)) :=
  match results with
  | [] => some []
  | r :: rs =>
    match scoreOne r query enhanced jurisdiction with
    | none => none
    | some sr =>
      match scoreAllWithIds rs query enhanced jurisdiction with
      | none => none
      | some srs => some ((r.id, sr) :: srs)

/-- May `a` precede `b` under the spec's ordering (score desc, then semantic
desc, then chunk id ascending)? -/
def specPrecedes (a b : Str × SearchResult) : Bool :=
  b.2.score < a.2.score ||
    (a.2.score = b.2.score &&
      (b.2.relevanceFactors.semanticScore < a.2.relevanceFactors.semanticScore ||
        (a.2.relevanceFactors.semanticScore = b.2.relevanceFactors.semanticScore &&
          (lexLt a.1 b.1 || a.1 = b.1))))

/-- Insertion into a list ordered by `le`. -/
def insertBy (le : α → α → Bool) (x : α) : List α → List α
  | [] => [x]
  | y :: ys => if le x y then x :: y :: ys else y :: insertBy le x ys

/-- Insertion sort by `le`. -/
def sortBy (le : α → α → Bool) : List α → List α
  | [] => []
  | x :: xs => insertBy le x (sortBy le xs)

/-- Modelled from the spec: `search` as the claim describes it, with the
documented tie-break (final score, then semantic score, then chunk id). -/
def search_claim_order (semanticResults keywordResults : List RawResult)
    (query : Str) (jurisdiction : Str) (maxResults : Nat) :
    Option (List SearchResult) :=
  let enhanced := expand_query query
  let combined := combine_results semanticResults keywordResults
  match scoreAllWithIds combined query enhanced jurisdiction with
  | none => none
  | some scored => some (((sortBy specPrecedes scored).take maxResults).map Prod.snd)

/-! Concrete instances used by witnesses and counterexamples. -/

/-- A raw semantic match with chunk id `b`, content `xb`, index score 1/2. -/
def rawB : RawResult :=
  { id := "b".toList, score := 1 / 2,
    metadata := { content := some "xb".toList, chunkType := none } }

/-- A raw semantic match with chunk id `a`, content `xa`, index score 1/2. -/
def rawA : RawResult :=
  { id := "a".toList, score := 1 / 2,
    metadata := { content := some "xa".toList, chunkType := none } }

/-- A search result with five-character content `aaaaa` and no citations. -/
def resultAs : SearchResult :=
  { content := "aaaaa".toList, score := 1,
    metadata := { content := none, chunkType := none },
    relevanceFactors := ⟨1, 0, 0, 0, 0⟩, citationChain := [],
    jurisdiction := [], lawStatus := [], documentType := [] }

/-- A search result with five-character content `bbbbb` and no citations. -/
def resultBs : SearchResult :=
  { resultAs with content := "bbbbb".toList }

/-- A retrieved result whose semantic factor is 0.9 (all other factors 0.5). -/
def resultHighSem : SearchResult :=
  { resultAs with relevanceFactors := ⟨9 / 10, 1 / 2, 1 / 2, 1 / 2, 1 / 2⟩ }

/-- A case-law document in which the statute reference `9.9` appears early in a
section that the 10-character chunk size forces to split repeatedly. -/
def c4Text : Str :=
  "OPINION\nalpha 9.9 beta. gamma.\nlong tail line here. more and more text".toList

/-- A throwaway chunk used as the `getLastD` default. -/
def emptyChunk : CaseLawChunk :=
  { content := [], metadata := ⟨[], [], [], []⟩, chunkType := [], startLine := 0, endLine := 0 }

/-- The scored result that `search` produces from `rawA` with query `q`. -/
def scoredA : SearchResult :=
  { content := "xa".toList, score := 37 / 100,
    metadata := { content := some "xa".toList, chunkType := none },
    relevanceFactors :=
      { semanticScore := 1 / 2, keywordScore := 0, jurisdictionScore := 1 / 2,
        lawStatusScore := 7 / 10, documentTypeScore := 1 / 2 },
    citationChain := [], jurisdiction := "unknown".toList,
    lawStatus := "current".toList, documentType := "unknown".toList }

/-- The scored result that `search` produces from `rawB` with query `q`. -/
def scoredB : SearchResult :=
  { scoredA with
      content := "xb".toList
      metadata := { content := some "xb".toList, chunkType := none } }

/-! ## Theorems -/

/-- C6: the status history of an ingestion task is `uploaded`, then
`processing`, then exactly one terminal status (`completed` or `failed`);
ranks strictly increase along the trace, so a task never leaves a terminal
status, for any outcome of the background processing. -/
theorem c6_task_status_monotone (o : ProcOutcome) :
    List.Pairwise (fun a b => statusRank a < statusRank b) (task_status_trace o) ∧
      (task_status_trace o =
          [TaskStatus.uploaded, TaskStatus.processing, TaskStatus.completed] ∨
        task_status_trace o =
          [TaskStatus.uploaded, TaskStatus.processing, TaskStatus.failed]) := by
  have h : task_status_trace o =
        [TaskStatus.uploaded, TaskStatus.processing, TaskStatus.completed] ∨
      task_status_trace o =
        [TaskStatus.uploaded, TaskStatus.processing, TaskStatus.failed] := by
    cases o with
    | raised s => exact Or.inr rfl
    | returned r =>
      match r with
      | none => exact Or.inr rfl
      | some true => exact Or.inl rfl
      | some false => exact Or.inr rfl
  rcases h with h | h <;> rw [h]
  · exact ⟨by decide, Or.inl rfl⟩
  · exact ⟨by decide, Or.inr rfl⟩

/-- C8: on a text whose three detection scores are all zero (here the empty
text), `_detect_document_type` returns `case_law`, not `general`: the
`scores` dict is never empty, so the `general` fallback is dead code and the
first key of the dict wins the all-zero tie. -/
theorem c8_all_zero_returns_case_law :
    (document_patterns.map (fun e => docTypeScore [] [] e.2.1 e.2.2)) = [0, 0, 0] ∧
      detect_document_type [] = "case_law".toList ∧
      "case_law".toList ≠ "general".toList := by
  refine ⟨by decide, by decide, by decide⟩

/-- C5: the confidence computation looks up the keys `semantic_similarity`,
`keyword_matching` and `citation_relevance`, none of which occur in the
relevance breakdown produced by the retrieval pipeline (its keys are
`semantic_score`, `keyword_score`, ...).  At a response whose averaged
semantic factor is 0.9, the 1.05 semantic bonus is therefore not applied and
the 0.9 citation penalty is applied, giving 0.9 · 0.8 · 0.9 = 81/125 instead
of the claimed 0.9 · 0.8 · 1.05. -/
theorem c5_confidence_key_mismatch :
    pyGetQ (get_relevance_breakdown [resultHighSem]) "semantic_score" 0 = 9 / 10 ∧
      pyGetQ (get_relevance_breakdown [resultHighSem]) "semantic_similarity" 0 = 0 ∧
      pyGetQ (get_relevance_breakdown [resultHighSem]) "citation_relevance" 0 = 0 ∧
      calculate_confidence_score
        { topScore := 9 / 10, totalResults := 1,
          relevanceBreakdown := get_relevance_breakdown [resultHighSem] } = 81 / 125 ∧
      (81 / 125 : Rat) ≠ (9 / 10) * 0.8 * 1.05 := by
  refine ⟨by with_unfolding_all decide, by with_unfolding_all decide,
    by with_unfolding_all decide, by with_unfolding_all decide,
    by with_unfolding_all decide⟩

/-- C7 (counterexample): query enhancement is not idempotent.  Enhancing
`warrant` yields `warrant court order`; enhancing that again appends
`tribunal` (the synonym `court order` introduced the new source term
`court`), so the enhanced query is not a fixed point. -/
theorem c7_counterexample :
    (expand_query ((expand_query "warrant".toList).enhancedQuery)).enhancedQuery ≠
      (expand_query "warrant".toList).enhancedQuery ∧
      (expand_query "warrant".toList).enhancedQuery = "warrant court order".toList ∧
      (expand_query ((expand_query "warrant".toList).enhancedQuery)).enhancedQuery =
        "warrant court order tribunal".toList := by
  refine ⟨by decide, by decide, by decide⟩

/-- The jurisdiction factor is `max 1/2 (matched indicators / indicator count)`
for the `federal` and `state` preferences and `1/2` otherwise, hence always in
`[1/2, 1]`. -/
theorem jurisdictionScoreBoundsAux (m : ChunkMeta) (j : Str) :
    1 / 2 ≤ calculate_jurisdiction_score m j ∧ calculate_jurisdiction_score m j ≤ 1 := by
  simp only [calculate_jurisdiction_score]
  split
  · refine ⟨le_max_left _ _, max_le (by norm_num) ?_⟩
    rw [div_le_one (by norm_num [federal_indicators])]
    have h := List.countP_le_length
      (fun t => pyIn t (pyLower (m.content.getD []))) (l := federal_indicators)
    exact_mod_cast le_trans h (by norm_num [federal_indicators])
  · split
    · refine ⟨le_max_left _ _, max_le (by norm_num) ?_⟩
      rw [div_le_one (by norm_num [state_indicators])]
      have h := List.countP_le_length
        (fun t => pyIn t (pyLower (m.content.getD []))) (l := state_indicators)
      exact_mod_cast le_trans h (by norm_num [state_indicators])
    · exact ⟨le_refl _, by norm_num⟩

/-- C9 (amended): for every chunk metadata and every jurisdiction preference,
the jurisdiction factor equals `max 0.5 f`, where `f` is the fraction of
target-jurisdiction indicator phrases occurring in the chunk content (out of 5
for `federal`, 4 for `state`), and is `0.5` for any other preference; it
therefore always lies in `[0.5, 1]` — in particular the value `0.3` claimed
for non-matching chunks is never produced, and a matching chunk need not
score `1.0`. -/
theorem c9_jurisdiction_score_range (m : ChunkMeta) (j : Str) :
    1 / 2 ≤ calculate_jurisdiction_score m j ∧ calculate_jurisdiction_score m j ≤ 1 :=
  jurisdictionScoreBoundsAux m j

/-- C9 (counterexample): a chunk whose content is exactly `state` has
jurisdiction `state`; with preference `state` the claim demands factor 1.0,
but the code scores `max 0.5 (1/4) = 0.5`.  A chunk matching three of the
four state indicators scores 0.75, a value outside the claimed set
`{1.0, 0.5, 0.3}`. -/
theorem c9_counterexample :
    determine_jurisdiction { content := some "state".toList, chunkType := none } =
        "state".toList ∧
      calculate_jurisdiction_score { content := some "state".toList, chunkType := none }
          "state".toList = 1 / 2 ∧
      calculate_jurisdiction_score
          { content := some "state local municipal x".toList, chunkType := none }
          "state".toList = 3 / 4 ∧
      ¬((1 / 2 : Rat) = 1) ∧ ¬((3 / 4 : Rat) = 1 ∨ (3 / 4 : Rat) = 1 / 2 ∨
        (3 / 4 : Rat) = 3 / 10) := by
  refine ⟨by decide, by with_unfolding_all decide, by with_unfolding_all decide,
    by with_unfolding_all decide, by with_unfolding_all decide⟩

/-- C3 (counterexample): with `max_context_length = 10` and two results whose
contents have five characters each, both are admitted (5 ≤ 10, 5+5 ≤ 10), but
the `"\n\n"` join separator is never counted, so the returned context window
has 12 > 10 characters. -/
theorem c3_counterexample :
    (build_context_window 10 [resultAs, resultBs] "q".toList).length = 12 ∧
      ¬((build_context_window 10 [resultAs, resultBs] "q".toList).length ≤ 10) := by
  exact ⟨by decide, by decide⟩

/-- C2 (counterexample): two merged results with identical scores (semantic
1/2, identical factor profiles) but chunk ids `b` before `a` in merge order.
`search` keeps them in merge order (`xb` before `xa`: Python's sort is stable
and has no tie-break key), while the claimed ordering — score, then semantic
score, then chunk id — puts `xa` first. -/
theorem c2_counterexample :
    (search [rawB, rawA] [] "q".toList "federal".toList 10).map
        (fun l => l.map SearchResult.content) = some ["xb".toList, "xa".toList] ∧
      (search_claim_order [rawB, rawA] [] "q".toList "federal".toList 10).map
        (fun l => l.map SearchResult.content) = some ["xa".toList, "xb".toList] ∧
      search [rawB, rawA] [] "q".toList "federal".toList 10 ≠
        search_claim_order [rawB, rawA] [] "q".toList "federal".toList 10 := by
  refine ⟨by with_unfolding_all decide, by with_unfolding_all decide,
    by with_unfolding_all decide⟩

/-- C4 (counterexample): chunking the case-law document `c4Text` with chunk
size 10 produces a third chunk whose metadata still lists statute `9.9` —
extracted from a line that ended up in the first two chunks — although `9.9`
does not occur in the third chunk's content: `current_metadata` is never
reset at a size-based break. -/
theorem c4_counterexample :
    "9.9".toList ∈
        ((chunk_case_law 10 200 c4Text).getLastD emptyChunk).metadata.statuteNumbers ∧
      pyIn "9.9".toList ((chunk_case_law 10 200 c4Text).getLastD emptyChunk).content
        = false := by
  exact ⟨by decide, by decide⟩

/-- If no abbreviation in the table occurs in the lowered query, the
abbreviation pass leaves the evolving query untouched. -/
theorem abbrevPassId (ql : Str) (tbl : List (Str × Str)) (ex : Str) (f : List (Str × Str))
    (h : ∀ p ∈ tbl, pyIn (pyLower p.1) ql = false) : abbrevPass ql tbl ex f = (ex, f) := by
  induction tbl generalizing ex f with
  | nil => rfl
  | cons p rest ih =>
    simp only [abbrevPass, h p (List.mem_cons_self p rest), Bool.false_eq_true, if_false]
    exact ih ex f (fun q hq => h q (List.mem_cons_of_mem p hq))

/-- If no misspelling in the table occurs in the lowered query, the
spell-correction pass leaves the evolving query untouched. -/
theorem spellPassId (ql : Str) (tbl : List (Str × Str)) (ex : Str) (f : List Str)
    (h : ∀ p ∈ tbl, pyIn p.1 ql = false) : spellPass ql tbl ex f = (ex, f) := by
  induction tbl generalizing ex f with
  | nil => rfl
  | cons p rest ih =>
    simp only [spellPass, h p (List.mem_cons_self p rest), Bool.false_eq_true, if_false]
    exact ih ex f (fun q hq => h q (List.mem_cons_of_mem p hq))

/-- C7 (amended): query enhancement is not idempotent in general (see the
counterexample), but re-application only ever extends: whenever no
abbreviation and no misspelling occurs in a query — as is the case for
queries consisting of plain synonym terms — `expand_query` returns that
query with zero or more synonym terms appended after it. -/
theorem c7_enhancement_extends (q : Str)
    (habbr : ∀ p ∈ abbreviationTable, pyIn (pyLower p.1) (pyLower q) = false)
    (hspell : ∀ p ∈ spell_corrections, pyIn p.1 (pyLower q) = false) :
    ∃ t, (expand_query q).enhancedQuery = q ++ t := by
  have h1 : abbrevPass (pyLower q) abbreviationTable q [] = (q, []) :=
    abbrevPassId (pyLower q) abbreviationTable q [] habbr
  have h2 : spellPass (pyLower q) spell_corrections q [] = (q, []) :=
    spellPassId (pyLower q) spell_corrections q [] hspell
  simp only [expand_query, h1, h2]
  split
  · exact ⟨[], (List.append_nil q).symm⟩
  · exact ⟨" ".toList ++ pyJoin " ".toList
      (((synonymPass (pyLower q) legal_synonyms).2).take 5), List.append_assoc _ _ _⟩

/-- Witness for C7 (amended): the enhanced query of `warrant` contains no
abbreviation and no misspelling, so re-enhancing it only appends terms
(concretely, ` tribunal`). -/
theorem c7_enhancement_extends_witness :
    ∃ t, (expand_query ((expand_query "warrant".toList).enhancedQuery)).enhancedQuery =
      (expand_query "warrant".toList).enhancedQuery ++ t :=
  c7_enhancement_extends ((expand_query "warrant".toList).enhancedQuery)
    (by decide) (by decide)

/-- `dinsert` never returns the empty dict. -/
theorem dinsertNeNil (m : List RawResult) (r : RawResult) : dinsert m r ≠ [] := by
  unfold dinsert
  split
  · intro h
    cases m with
    | nil => simp at *
    | cons x xs => simp at h
  · simp

/-- `dinsertIfBetter` never returns the empty dict. -/
theorem dinsertIfBetterNeNil (m : List RawResult) (r : RawResult) :
    dinsertIfBetter m r ≠ [] := by
  unfold dinsertIfBetter
  split
  · intro h
    cases m with
    | nil => simp at *
    | cons x xs => simp at h
  · simp

/-- Folding `dinsert` over a non-empty dict keeps it non-empty. -/
theorem foldlDinsertNeNil (l : List RawResult) (m : List RawResult) (hm : m ≠ []) :
    l.foldl dinsert m ≠ [] := by
  induction l generalizing m with
  | nil => exact hm
  | cons x xs ih => exact ih (dinsert m x) (dinsertNeNil m x)

/-- Folding `dinsertIfBetter` over a non-empty dict keeps it non-empty. -/
theorem foldlDinsertIfBetterNeNil (l : List RawResult) (m : List RawResult) (hm : m ≠ []) :
    l.foldl dinsertIfBetter m ≠ [] := by
  induction l generalizing m with
  | nil => exact hm
  | cons x xs ih => exact ih (dinsertIfBetter m x) (dinsertIfBetterNeNil m x)

/-- A non-empty semantic response yields a non-empty merged result set. -/
theorem combineResultsNeNil (sem kw : List RawResult) (h : sem ≠ []) :
    combine_results sem kw ≠ [] := by
  unfold combine_results
  cases sem with
  | nil => exact absurd rfl h
  | cons x xs =>
    exact foldlDinsertIfBetterNeNil kw _
      (by simpa using foldlDinsertNeNil xs (dinsert [] x) (dinsertNeNil [] x))

/-- C10: a chat request whose `question` is the empty string passes the
boundary validation (which only rejects a missing key), its lowercased
whitespace tokenization is empty, and for any non-empty merged retrieval
response the keyword score divides by zero, so `search` raises instead of
returning results (modelled as `none`). -/
theorem c10_empty_question_reaches_division (sem kw : List RawResult) (j : Str) (k : Nat)
    (h : sem ≠ []) :
    chatRequestAccepted (some [("question", "")]) = true ∧
      pyTokens (pyLower "".toList) = [] ∧
      search sem kw "".toList j k = none := by
  refine ⟨rfl, rfl, ?_⟩
  obtain ⟨c, cs, hc⟩ := List.exists_cons_of_ne_nil (combineResultsNeNil sem kw h)
  unfold search
  rw [hc]
  have hs : scoreOne c "".toList (expand_query "".toList) j = none := rfl
  simp only [apply_relevance_scoring, hs]

/-- Witness for C10 at a concrete input: one semantic result suffices. -/
theorem c10_empty_question_witness :
    chatRequestAccepted (some [("question", "")]) = true ∧
      pyTokens (pyLower "".toList) = [] ∧
      search [rawA] [] "".toList "federal".toList 10 = none :=
  c10_empty_question_reaches_division [rawA] [] "federal".toList 10 (by decide)

/-- Every value in `dinsert m r` comes from `m` or is `r`. -/
theorem memDinsert (m : List RawResult) (r x : RawResult) (h : x ∈ dinsert m r) :
    x ∈ m ∨ x = r := by
  unfold dinsert at h
  split at h
  · obtain ⟨y, hy, hxy⟩ := List.mem_map.mp h
    by_cases hid : y.id = r.id
    · simp only [hid, if_pos rfl] at hxy
      exact Or.inr hxy.symm
    · rw [if_neg hid] at hxy
      exact Or.inl (hxy ▸ hy)
  · rcases List.mem_append.mp h with h | h
    · exact Or.inl h
    · exact Or.inr (List.mem_singleton.mp h)

/-- Every value in `dinsertIfBetter m r` comes from `m` or is `r`. -/
theorem memDinsertIfBetter (m : List RawResult) (r x : RawResult)
    (h : x ∈ dinsertIfBetter m r) : x ∈ m ∨ x = r := by
  unfold dinsertIfBetter at h
  split at h
  · obtain ⟨y, hy, hxy⟩ := List.mem_map.mp h
    by_cases hid : y.id = r.id
    · rw [if_pos hid] at hxy
      by_cases hsc : r.score > y.score
      · rw [if_pos hsc] at hxy
        exact Or.inr hxy.symm
      · rw [if_neg hsc] at hxy
        exact Or.inl (hxy ▸ hy)
    · rw [if_neg hid] at hxy
      exact Or.inl (hxy ▸ hy)
  · rcases List.mem_append.mp h with h | h
    · exact Or.inl h
    · exact Or.inr (List.mem_singleton.mp h)

/-- Members of a `dinsert` fold come from the seed dict or the folded list. -/
theorem memFoldlDinsert (l : List RawResult) (m : List RawResult) (x : RawResult)
    (h : x ∈ l.foldl dinsert m) : x ∈ m ∨ x ∈ l := by
  induction l generalizing m with
  | nil => exact Or.inl h
  | cons a l ih =>
    rcases ih (dinsert m a) h with h1 | h1
    · rcases memDinsert m a x h1 with h2 | h2
      · exact Or.inl h2
      · exact Or.inr (h2 ▸ List.mem_cons_self a l)
    · exact Or.inr (List.mem_cons_of_mem a h1)

/-- Members of a `dinsertIfBetter` fold come from the seed dict or the folded list. -/
theorem memFoldlDinsertIfBetter (l : List RawResult) (m : List RawResult) (x : RawResult)
    (h : x ∈ l.foldl dinsertIfBetter m) : x ∈ m ∨ x ∈ l := by
  induction l generalizing m with
  | nil => exact Or.inl h
  | cons a l ih =>
    rcases ih (dinsertIfBetter m a) h with h1 | h1
    · rcases memDinsertIfBetter m a x h1 with h2 | h2
      · exact Or.inl h2
      · exact Or.inr (h2 ▸ List.mem_cons_self a l)
    · exact Or.inr (List.mem_cons_of_mem a h1)

/-- Every merged result is one of the raw semantic or keyword results. -/
theorem memCombineResults (sem kw : List RawResult) (x : RawResult)
    (h : x ∈ combine_results sem kw) : x ∈ sem ∨ x ∈ kw := by
  unfold combine_results at h
  rcases memFoldlDinsertIfBetter kw _ x h with h1 | h1
  · rcases memFoldlDinsert sem [] x h1 with h2 | h2
    · cases h2
    · exact Or.inl h2
  · exact Or.inr h1

/-- Every scored result arises from `scoreOne` on some merged raw result. -/
theorem memApplyRelevanceScoring (rs : List RawResult) (q : Str)
    (e : QueryEnhancement) (j : Str) (l : List SearchResult)
    (h : apply_relevance_scoring rs q e j = some l) :
    ∀ sr ∈ l, ∃ r ∈ rs, scoreOne r q e j = some sr := by
  induction rs generalizing l with
  | nil =>
    unfold apply_relevance_scoring at h
    injection h with h
    subst h
    intro sr hsr
    cases hsr
  | cons r rs ih =>
    unfold apply_relevance_scoring at h
    cases h1 : scoreOne r q e j with
    | none => rw [h1] at h; exact absurd h (by simp)
    | some sr0 =>
      rw [h1] at h
      cases h2 : apply_relevance_scoring rs q e j with
      | none => rw [h2] at h; exact absurd h (by simp)
      | some l' =>
        rw [h2] at h
        injection h with h
        subst h
        intro sr hsr
        rcases List.mem_cons.mp hsr with h3 | h3
        · exact ⟨r, List.mem_cons_self r rs, h3 ▸ h1⟩
        · obtain ⟨r', hr', he⟩ := ih l' h2 sr h3
          exact ⟨r', List.mem_cons_of_mem r hr', he⟩

/-- The keyword score, when defined, lies in `[0, 1]`. -/
theorem keywordScoreBounds (q : Str) (e : QueryEnhancement) (m : ChunkMeta) (v : Rat)
    (h : calculate_keyword_score q e m = some v) : 0 ≤ v ∧ v ≤ 1 := by
  simp only [calculate_keyword_score] at h
  split at h
  · exact absurd h (by simp)
  · injection h with h
    subst h
    constructor
    · refine le_min (div_nonneg ?_ (by positivity)) (by norm_num)
      unfold keywordMatches
      positivity
    · exact min_le_right _ _

/-- The law-status score is one of 0.3, 0.7, 1, hence in `[3/10, 1]`. -/
theorem lawStatusScoreBounds (m : ChunkMeta) :
    3 / 10 ≤ calculate_law_status_score m ∧ calculate_law_status_score m ≤ 1 := by
  simp only [calculate_law_status_score]
  split
  · exact ⟨le_refl _, by norm_num⟩
  · split
    · exact ⟨by norm_num, le_refl _⟩
    · exact ⟨by norm_num, by norm_num⟩

/-- The document-type score is one of the table values or the 0.5 default,
hence in `[1/2, 1]`. -/
theorem docTypeScoreBounds (m : ChunkMeta) :
    1 / 2 ≤ calculate_document_type_score m ∧ calculate_document_type_score m ≤ 1 := by
  simp only [calculate_document_type_score]
  split
  next e he =>
    have hm := List.mem_of_find?_eq_some he
    simp only [type_scores, List.mem_cons, List.mem_singleton] at hm
    rcases hm with h | h | h | h | h
    · rw [h]; norm_num
    · rw [h]; norm_num
    · rw [h]; norm_num
    · rw [h]; norm_num
    · cases h
  next => norm_num

/-- What `scoreOne` stores: the five factors and the weighted-sum final score. -/
theorem scoreOneSpec (r : RawResult) (q : Str) (e : QueryEnhancement) (j : Str)
    (sr : SearchResult) (h : scoreOne r q e j = some sr) :
    sr.relevanceFactors.semanticScore = r.score ∧
      calculate_keyword_score q e r.metadata = some sr.relevanceFactors.keywordScore ∧
      sr.relevanceFactors.jurisdictionScore = calculate_jurisdiction_score r.metadata j ∧
      sr.relevanceFactors.lawStatusScore = calculate_law_status_score r.metadata ∧
      sr.relevanceFactors.documentTypeScore = calculate_document_type_score r.metadata ∧
      sr.score = 0.4 * sr.relevanceFactors.semanticScore
        + 0.3 * sr.relevanceFactors.keywordScore
        + 0.15 * sr.relevanceFactors.jurisdictionScore
        + 0.1 * sr.relevanceFactors.lawStatusScore
        + 0.05 * sr.relevanceFactors.documentTypeScore := by
  unfold scoreOne at h
  cases hk : calculate_keyword_score q e r.metadata with
  | none => rw [hk] at h; exact absurd h (by simp)
  | some kwv =>
    rw [hk] at h
    injection h with h
    subst h
    refine ⟨?_, ?_, ?_, ?_, ?_, ?_⟩
    · rfl
    · rfl
    · rfl
    · rfl
    · rfl
    show r.score * weightOf "semantic_score" + kwv * weightOf "keyword_match"
        + calculate_jurisdiction_score r.metadata j * weightOf "jurisdiction_relevance"
        + calculate_law_status_score r.metadata * weightOf "law_status"
        + calculate_document_type_score r.metadata * weightOf "document_type" = _
    rw [show weightOf "semantic_score" = 0.4 from by with_unfolding_all decide,
      show weightOf "keyword_match" = 0.3 from by with_unfolding_all decide,
      show weightOf "jurisdiction_relevance" = 0.15 from by with_unfolding_all decide,
      show weightOf "law_status" = 0.1 from by with_unfolding_all decide,
      show weightOf "document_type" = 0.05 from by with_unfolding_all decide]
    ring

/-- Membership in an `insertDesc` result. -/
theorem memInsertDesc (x y : SearchResult) (l : List SearchResult) :
    y ∈ insertDesc x l ↔ y = x ∨ y ∈ l := by
  induction l with
  | nil => simp [insertDesc]
  | cons z zs ih =>
    unfold insertDesc
    split
    · simp
    · simp only [List.mem_cons, ih]
      tauto

/-- The stable sort permutes membership. -/
theorem memSortByScoreDesc (l : List SearchResult) (y : SearchResult) :
    y ∈ sortByScoreDesc l ↔ y ∈ l := by
  induction l with
  | nil => simp [sortByScoreDesc]
  | cons x xs ih =>
    unfold sortByScoreDesc
    rw [memInsertDesc, ih]
    simp

/-- C1: whenever `search` succeeds and the raw index scores of both vector
database responses lie in `[0, 1]`, every returned result's composite score
equals exactly `0.40·semantic + 0.30·keyword + 0.15·jurisdiction +
0.10·law_status + 0.05·doc_type` of its stored factors and lies in `[0, 1]`. -/
theorem c1_composite_score (sem kw : List RawResult) (q j : Str) (k : Nat)
    (hsem : ∀ r ∈ sem, 0 ≤ r.score ∧ r.score ≤ 1)
    (hkw : ∀ r ∈ kw, 0 ≤ r.score ∧ r.score ≤ 1)
    (out : List SearchResult) (hout : search sem kw q j k = some out) :
    ∀ sr ∈ out,
      sr.score = 0.4 * sr.relevanceFactors.semanticScore
          + 0.3 * sr.relevanceFactors.keywordScore
          + 0.15 * sr.relevanceFactors.jurisdictionScore
          + 0.1 * sr.relevanceFactors.lawStatusScore
          + 0.05 * sr.relevanceFactors.documentTypeScore ∧
        0 ≤ sr.score ∧ sr.score ≤ 1 := by
  simp only [search] at hout
  cases hsc : apply_relevance_scoring (combine_results sem kw) q (expand_query q) j with
  | none => rw [hsc] at hout; exact absurd hout (by simp)
  | some scored =>
    rw [hsc] at hout
    injection hout with hout
    subst hout
    intro sr hsr
    have hsr2 : sr ∈ scored :=
      (memSortByScoreDesc scored sr).mp (List.mem_of_mem_take hsr)
    obtain ⟨r, hrmem, hr⟩ := memApplyRelevanceScoring _ _ _ _ _ hsc sr hsr2
    have hsb : 0 ≤ r.score ∧ r.score ≤ 1 :=
      (memCombineResults sem kw r hrmem).elim (hsem r) (hkw r)
    obtain ⟨e1, e2, e3, e4, e5, e6⟩ := scoreOneSpec _ _ _ _ _ hr
    refine ⟨e6, ?_, ?_⟩
    · rw [e6]
    

      have h1 : 0 ≤ sr.relevanceFactors.semanticScore := e1 ▸ hsb.1
      have h2 := (keywordScoreBounds _ _ _ _ e2).1
      have h3 := (jurisdictionScoreBoundsAux r.metadata j).1
      have h4 := (lawStatusScoreBounds r.metadata).1
      have h5 := (docTypeScoreBounds r.metadata).1
      rw [e3] at *
      nlinarith [h1, h2, h3, h4, h5]
    · rw [e6]
      have h1 : sr.relevanceFactors.semanticScore ≤ 1 := e1 ▸ hsb.2
      have h2 := (keywordScoreBounds _ _ _ _ e2).2
      have h3 := (jurisdictionScoreBoundsAux r.metadata j).2
      have h4 := (lawStatusScoreBounds r.metadata).2
      have h5 := (docTypeScoreBounds r.metadata).2
      rw [e3] at *
      nlinarith [h1, h2, h3, h4, h5]

/-- Witness for C1 at a concrete input: one semantic result with index score
1/2 for the query `q`. -/
theorem c1_composite_score_witness :
    (∀ r ∈ [rawA], 0 ≤ r.score ∧ r.score ≤ 1) ∧
      search [rawA] [] "q".toList "federal".toList 10 = some [scoredA] ∧
      ∀ sr ∈ [scoredA],
        sr.score = 0.4 * sr.relevanceFactors.semanticScore
            + 0.3 * sr.relevanceFactors.keywordScore
            + 0.15 * sr.relevanceFactors.jurisdictionScore
            + 0.1 * sr.relevanceFactors.lawStatusScore
            + 0.05 * sr.relevanceFactors.documentTypeScore ∧
          0 ≤ sr.score ∧ sr.score ≤ 1 :=
  ⟨by with_unfolding_all decide, by with_unfolding_all decide,
    c1_composite_score [rawA] [] "q".toList "federal".toList 10
      (by with_unfolding_all decide) (by with_unfolding_all decide)
      [scoredA] (by with_unfolding_all decide)⟩

/-- Inserting into a score-descending list keeps it score-descending. -/
theorem pairwiseInsertDesc (x : SearchResult) (l : List SearchResult)
    (h : List.Pairwise (fun a b => b.score ≤ a.score) l) :
    List.Pairwise (fun a b => b.score ≤ a.score) (insertDesc x l) := by
  induction l with
  | nil => simp [insertDesc]
  | cons y ys ih =>
    unfold insertDesc
    split
    next hxy =>
      refine List.Pairwise.cons ?_ h
      intro z hz
      rcases List.mem_cons.mp hz with rfl | hz
      · exact hxy
      · exact le_trans ((List.pairwise_cons.mp h).1 z hz) hxy
    next hxy =>
      obtain ⟨hy, hys⟩ := List.pairwise_cons.mp h
      refine List.Pairwise.cons ?_ (ih hys)
      intro z hz
      rcases (memInsertDesc x z ys).mp hz with rfl | hz
      · exact le_of_lt (lt_of_not_ge hxy)
      · exact hy z hz

/-- The stable sort is score-descending. -/
theorem pairwiseSortByScoreDesc (l : List SearchResult) :
    List.Pairwise (fun a b => b.score ≤ a.score) (sortByScoreDesc l) := by
  induction l with
  | nil => exact List.Pairwise.nil
  | cons x xs ih => exact pairwiseInsertDesc x (sortByScoreDesc xs) ih

/-- C2 (amended): whenever `search` succeeds, the returned list is sorted by
final score descending and contains at most `max_results` entries; it is
exactly the stable score-descending sort of the scored merge-ordered results,
truncated — so equal-score results keep their merge order (Python's sort is
stable), rather than being tie-broken by semantic score and chunk id. -/
theorem c2_sorted_truncated (sem kw : List RawResult) (q j : Str) (k : Nat)
    (out : List SearchResult) (hout : search sem kw q j k = some out) :
    List.Pairwise (fun a b => b.score ≤ a.score) out ∧ out.length ≤ k ∧
      ∃ scored,
        apply_relevance_scoring (combine_results sem kw) q (expand_query q) j =
            some scored ∧
          out = (sortByScoreDesc scored).take k := by
  simp only [search] at hout
  cases hsc : apply_relevance_scoring (combine_results sem kw) q (expand_query q) j with
  | none => rw [hsc] at hout; exact absurd hout (by simp)
  | some scored =>
    rw [hsc] at hout
    injection hout with hout
    subst hout
    refine ⟨?_, ?_, scored, rfl, rfl⟩
    · exact List.Pairwise.sublist (List.take_sublist k _) (pairwiseSortByScoreDesc scored)
    · exact le_trans (Nat.le_of_eq (List.length_take k _)) (Nat.min_le_left _ _)

/-- Witness for C2 (amended) at a concrete input: the two tied results. -/
theorem c2_sorted_truncated_witness :
    search [rawB, rawA] [] "q".toList "federal".toList 10 = some [scoredB, scoredA] ∧
      (List.Pairwise (fun a b => b.score ≤ a.score) [scoredB, scoredA] ∧
        ([scoredB, scoredA] : List SearchResult).length ≤ 10 ∧
        ∃ scored,
          apply_relevance_scoring (combine_results [rawB, rawA] []) "q".toList
              (expand_query "q".toList) "federal".toList = some scored ∧
            [scoredB, scoredA] = (sortByScoreDesc scored).take 10) :=
  ⟨by with_unfolding_all decide,
    c2_sorted_truncated [rawB, rawA] [] "q".toList "federal".toList 10
      [scoredB, scoredA] (by with_unfolding_all decide)⟩

/-- The join's length is the total part length plus one separator between
consecutive parts, so at most `sum + |sep| * (n - 1)`. -/
theorem pyJoinLengthLe (sep : Str) (ps : List Str) :
    (pyJoin sep ps).length ≤ (ps.map List.length).sum + sep.length * (ps.length - 1) := by
  induction ps with
  | nil => simp [pyJoin]
  | cons x t ih =>
    cases t with
    | nil => simp [pyJoin]
    | cons y t2 =>
      have h0 : pyJoin sep (x :: y :: t2) = x ++ sep ++ pyJoin sep (y :: t2) := rfl
      rw [h0]
      simp only [List.length_append, List.map_cons, List.sum_cons, List.length_cons,
        Nat.add_sub_cancel]
      have ih2 := ih
      simp only [List.map_cons, List.sum_cons, List.length_cons, Nat.add_sub_cancel] at ih2
      have hm : sep.length * (t2.length + 1) = sep.length * t2.length + sep.length := by ring
      omega

/-- The packing loop admits at most `maxLen + 3` characters beyond the running
start (`+3` for the ellipsis of a truncated part) and at most one part per
result. -/
theorem packLoopBound (maxLen : Nat) (rs : List SearchResult) :
    ∀ cur : Nat, cur ≤ maxLen →
      ((packLoop maxLen rs cur).1.map List.length).sum + cur ≤ maxLen + 3 ∧
        (packLoop maxLen rs cur).1.length ≤ rs.length := by
  induction rs with
  | nil =>
    intro cur hcur
    simp only [packLoop, List.map_nil, List.sum_nil, List.length_nil, Nat.zero_add]
    omega
  | cons r rs ih =>
    intro cur hcur
    simp only [packLoop]
    split
    next hfit =>
      cases hp : packLoop maxLen rs (cur + r.content.length) with
      | mk ps cur2 =>
        have h := ih (cur + r.content.length) hfit
        rw [hp] at h
        dsimp only at h
        simp only [List.map_cons, List.sum_cons, List.length_cons]
        omega
    next hfit =>
      split
      · simp only [List.map_cons, List.map_nil, List.sum_cons, List.sum_nil,
          List.length_append, List.length_cons, List.length_nil]
        have ht : (r.content.take (maxLen - cur)).length ≤ maxLen - cur := by
          rw [List.length_take]
          exact Nat.min_le_left _ _
        have he : ("...".toList : Str).length = 3 := by decide
        omega
      · simp only [List.map_nil, List.sum_nil, List.length_nil]
        omega

/-- C3 (amended): the context window is bounded not by `max_context_length`
itself (see the counterexample — the `"\n\n"` separators, the 3-character
ellipsis and the 21-character `Related Citations` header are never counted,
and the truncated part does not advance the running length), but by
`2·max_context_length + 2·(number of results) + 24`. -/
theorem c3_context_window_bound (maxLen : Nat) (results : List SearchResult) (q : Str) :
    (build_context_window maxLen results q).length ≤
      2 * maxLen + 2 * results.length + 24 := by
  simp only [build_context_window]
  cases hp : packLoop maxLen results 0 with
  | mk parts cur =>
    have hb := packLoopBound maxLen results 0 (Nat.zero_le _)
    rw [hp] at hb
    dsimp only at hb
    obtain ⟨hS, hn⟩ := hb
    have hsep : ("\n\n".toList : Str).length = 2 := by decide
    split
    · -- no citations: join of the plain parts
      refine le_trans (pyJoinLengthLe "\n\n".toList parts) ?_
      rw [hsep]
      omega
    · split
      next hadm =>
        -- citation block admitted: one extra part of length 21 + |cc|
        refine le_trans (pyJoinLengthLe "\n\n".toList _) ?_
        rw [hsep]
        have hcc : (build_citation_context
            (List.foldl (fun acc r => acc ++ r.citationChain) [] results)).length ≤ maxLen := by
          omega
        have hhd : ("\n\nRelated Citations:\n".toList : Str).length = 21 := by decide
        simp only [List.map_append, List.map_cons, List.map_nil, List.sum_append,
          List.sum_cons, List.sum_nil, List.length_append, List.length_cons,
          List.length_nil, List.length_append]
        omega
      next hadm =>
        refine le_trans (pyJoinLengthLe "\n\n".toList parts) ?_
        rw [hsep]
        omega

/-- Substrings compose. -/
theorem subOfTrans (a b c : Str) (h1 : SubOf a b) (h2 : SubOf b c) : SubOf a c := by
  obtain ⟨u1, v1, rfl⟩ := h1
  obtain ⟨u2, v2, rfl⟩ := h2
  exact ⟨u2 ++ u1, v1 ++ v2, by simp⟩

/-- A list is a substring of itself. -/
theorem subOfSelf (s : Str) : SubOf s s := ⟨[], [], by simp⟩

/-- A prefix obtained by `take` is a substring. -/
theorem subOfTake (s : Str) (n : Nat) : SubOf (s.take n) s :=
  ⟨[], s.drop n, by simp⟩

/-- A suffix obtained by `drop` is a substring. -/
theorem subOfDrop (s : Str) (n : Nat) : SubOf (s.drop n) s :=
  ⟨s.take n, [], by simp⟩

/-- Extending the string on the left preserves substrings. -/
theorem subOfCons (c : Char) (m s : Str) (h : SubOf m s) : SubOf m (c :: s) := by
  obtain ⟨u, v, rfl⟩ := h
  exact ⟨c :: u, v, rfl⟩

/-- A successful backtracking attempt leaves a suffix, provided the inner
matcher does. -/
theorem tryCntSuffix (f : Str → Option Str) (s : Str) (lo : Nat) (e : Nat) (r : Str)
    (hf : ∀ t r2, f t = some r2 → ∃ m, t = m ++ r2)
    (h : tryCnt f s lo e = some r) : ∃ m, s = m ++ r := by
  induction e with
  | zero =>
    obtain ⟨m, hm⟩ := hf (s.drop lo) r h
    exact ⟨s.take lo ++ m, by rw [List.append_assoc, ← hm]; simp⟩
  | succ e ih =>
    unfold tryCnt at h
    cases hc : f (s.drop (lo + e + 1)) with
    | some r2 =>
      rw [hc] at h
      injection h with h
      obtain ⟨m, hm⟩ := hf (s.drop (lo + e + 1)) r2 hc
      refine ⟨s.take (lo + e + 1) ++ m, ?_⟩
      rw [List.append_assoc, ← h, ← hm]
      simp
    | none =>
      rw [hc] at h
      exact ih h

/-- A successful item match consumes a prefix: the rest is a suffix. -/
theorem matchIsSuffix (items : List RI) : ∀ (s r : Str),
    matchIs items s = some r → ∃ m, s = m ++ r := by
  induction items with
  | nil =>
    intro s r h
    injection h with h
    exact ⟨[], by rw [h, List.nil_append]⟩
  | cons it rest ih =>
    intro s r h
    cases it with
    | lit l =>
      unfold matchIs at h
      split at h
      · obtain ⟨m, hm⟩ := ih (s.drop l.length) r h
        exact ⟨s.take l.length ++ m, by rw [List.append_assoc, ← hm]; simp⟩
      · exact absurd h (by simp)
    | cls p lo hi =>
      simp only [matchIs] at h
      split at h
      · exact absurd h (by simp)
      · exact tryCntSuffix (fun t => matchIs rest t) s lo _ r (fun t r2 ht => ih t r2 ht) h

/-- A successful pattern match consumes a prefix: the rest is a suffix. -/
theorem matchPatSuffix (pat : RPat) (s : Str) (g : Nat) (r : Str)
    (h : matchPat pat s = some (g, r)) : ∃ m, s = m ++ r := by
  induction pat with
  | nil => exact absurd h (by simp [matchPat])
  | cons alt alts ih =>
    unfold matchPat at h
    cases hm : matchIs alt.1 s with
    | some rest =>
      rw [hm] at h
      injection h with h
      obtain ⟨m, hmm⟩ := matchIsSuffix alt.1 s rest hm
      exact ⟨m, by rw [hmm, (Prod.mk.injEq _ _ _ _).mp h.symm |>.2]⟩
    | none =>
      rw [hm] at h
      exact ih h

/-- Every string collected by the findall worker occurs inside its input. -/
theorem reFindAllFSubOf (pat : RPat) : ∀ (f : Nat) (s m : Str),
    m ∈ reFindAllF pat f s → SubOf m s := by
  intro f
  induction f with
  | zero => intro s m hm; cases hm
  | succ f ih =>
    intro s m hm
    cases s with
    | nil =>
      unfold reFindAllF at hm
      cases hmp : matchPat pat [] with
      | some gr =>
        obtain ⟨g, rest⟩ := gr
        rw [hmp] at hm
        rcases List.mem_singleton.mp hm with rfl
        exact ⟨[], [], by simp⟩
      | none => rw [hmp] at hm; cases hm
    | cons c cs =>
      unfold reFindAllF at hm
      cases hmp : matchPat pat (c :: cs) with
      | some gr =>
        obtain ⟨g, rest⟩ := gr
        rw [hmp] at hm
        dsimp only at hm
        have hhead : SubOf (((c :: cs).take ((c :: cs).length - rest.length)).drop g)
            (c :: cs) :=
          subOfTrans _ _ _ (subOfDrop _ g) (subOfTake (c :: cs) _)
        split at hm
        next hlt =>
          rcases List.mem_cons.mp hm with rfl | hm
          · exact hhead
          · obtain ⟨m0, hm0⟩ := matchPatSuffix pat (c :: cs) g rest hmp
            exact subOfTrans _ _ _ (ih rest m hm) ⟨m0, [], by simp [hm0]⟩
        next hlt =>
          rcases List.mem_cons.mp hm with rfl | hm
          · exact hhead
          · exact subOfCons c m cs (ih cs m hm)
      | none =>
        rw [hmp] at hm
        exact subOfCons c m cs (ih cs m hm)

/-- Extracted statute numbers occur inside the scanned text. -/
theorem extractStatuteSubOf (t r : Str) (h : r ∈ extract_statute_numbers t) : SubOf r t :=
  reFindAllFSubOf statuteNumberPat (t.length + 1) t r h

/-- Extracted case citations occur inside the scanned text. -/
theorem extractCitationSubOf (t r : Str) (h : r ∈ extract_case_citations t) : SubOf r t :=
  reFindAllFSubOf caseCitationPat (t.length + 1) t r h

/-- Stripping yields a substring of the original. -/
theorem pyStripSubOf (s : Str) : SubOf (pyStrip s) s := by
  have h1 : s.takeWhile isPySpace ++ s.dropWhile isPySpace = s :=
    List.takeWhile_append_dropWhile isPySpace s
  have h2 : (s.dropWhile isPySpace).reverse.takeWhile isPySpace ++
      (s.dropWhile isPySpace).reverse.dropWhile isPySpace = (s.dropWhile isPySpace).reverse :=
    List.takeWhile_append_dropWhile isPySpace (s.dropWhile isPySpace).reverse
  refine ⟨s.takeWhile isPySpace,
    ((s.dropWhile isPySpace).reverse.takeWhile isPySpace).reverse, ?_⟩
  have h3 : s.dropWhile isPySpace =
      pyStrip s ++ ((s.dropWhile isPySpace).reverse.takeWhile isPySpace).reverse := by
    have := congrArg List.reverse h2
    simp only [List.reverse_append, List.reverse_reverse] at this
    exact this.symm
  rw [List.append_assoc, ← h3, h1]

/-- The split list never is empty. -/
theorem splitCharNeNil (c : Char) (s : Str) : splitChar c s ≠ [] := by
  cases s with
  | nil => simp [splitChar]
  | cons a as =>
    unfold splitChar
    split
    · simp
    · cases h : splitChar c as with
      | nil => simp
      | cons x t => simp

/-- The first field of the split is a prefix of the string. -/
theorem splitCharHead (c : Char) : ∀ s : Str, ∃ v, s = (splitChar c s).headD [] ++ v := by
  intro s
  induction s with
  | nil => exact ⟨[], rfl⟩
  | cons a as ih =>
    unfold splitChar
    split
    · exact ⟨a :: as, rfl⟩
    · cases hsp : splitChar c as with
      | nil => exact absurd hsp (splitCharNeNil c as)
      | cons h t =>
        obtain ⟨v, hv⟩ := ih
        rw [hsp] at hv
        simp only [List.headD_cons] at hv
        refine ⟨v, ?_⟩
        simp only [List.headD_cons]
        rw [List.cons_append, ← hv]

/-- Every field of the split occurs inside the string. -/
theorem splitCharSubOf (c : Char) : ∀ (s l : Str), l ∈ splitChar c s → SubOf l s := by
  intro s
  induction s with
  | nil =>
    intro l hl
    simp only [splitChar, List.mem_singleton] at hl
    exact ⟨[], [], by simp [hl]⟩
  | cons a as ih =>
    intro l hl
    unfold splitChar at hl
    split at hl
    · rcases List.mem_cons.mp hl with rfl | hl
      · exact ⟨[], a :: as, rfl⟩
      · exact subOfCons a l as (ih l hl)
    · cases hsp : splitChar c as with
      | nil => exact absurd hsp (splitCharNeNil c as)
      | cons h t =>
        rw [hsp] at hl
        dsimp only at hl
        rcases List.mem_cons.mp hl with rfl | hl
        · obtain ⟨v, hv⟩ := splitCharHead c as
          rw [hsp] at hv
          simp only [List.headD_cons] at hv
          exact ⟨[], v, by rw [List.nil_append, List.cons_append, ← hv]⟩
        · exact subOfCons a l as (ih l (hsp ▸ List.mem_cons_of_mem h hl))

/-- Second components of the enumeration are list members. -/
theorem memEnumFSnd : ∀ (i : Nat) (l : List α) (p : Nat × α), p ∈ enumF i l → p.2 ∈ l := by
  intro i l
  induction l generalizing i with
  | nil => intro p hp; cases hp
  | cons x xs ih =>
    intro p hp
    rcases List.mem_cons.mp hp with rfl | hp
    · exact List.mem_cons_self x xs
    · exact List.mem_cons_of_mem x (ih (i + 1) p hp)

/-- References of a freshly started section metadata lie inside the marker line. -/
theorem newSectionMetaRefs (line text : Str) (hline : SubOf line text) :
    ∀ r ∈ (newSectionMeta line).statuteNumbers ++ (newSectionMeta line).caseCitations,
      SubOf r text := by
  intro r hr
  rcases List.mem_append.mp hr with h | h
  · exact subOfTrans _ _ _ (extractStatuteSubOf line r h) hline
  · exact subOfTrans _ _ _ (extractCitationSubOf line r h) hline

/-- Extending metadata with a line's references preserves the document bound. -/
theorem extendMetaRefs (md : CaseLawMeta) (line text : Str)
    (hmd : ∀ r ∈ md.statuteNumbers ++ md.caseCitations, SubOf r text)
    (hline : SubOf line text) :
    ∀ r ∈ (extendMeta md line).statuteNumbers ++ (extendMeta md line).caseCitations,
      SubOf r text := by
  intro r hr
  simp only [extendMeta, List.mem_append] at hr
  rcases hr with (h | h) | (h | h)
  · exact hmd r (List.mem_append.mpr (Or.inl h))
  · exact subOfTrans _ _ _ (extractStatuteSubOf line r h) hline
  · exact hmd r (List.mem_append.mpr (Or.inr h))
  · exact subOfTrans _ _ _ (extractCitationSubOf line r h) hline

/-- Appending a chunk whose metadata is document-bounded preserves the
accumulator invariant. -/
theorem accRefsAppend (acc : List CaseLawChunk) (ch0 : CaseLawChunk) (text : Str)
    (hacc : ∀ ch ∈ acc,
      ∀ r ∈ ch.metadata.statuteNumbers ++ ch.metadata.caseCitations, SubOf r text)
    (h0 : ∀ r ∈ ch0.metadata.statuteNumbers ++ ch0.metadata.caseCitations, SubOf r text) :
    ∀ ch ∈ acc ++ [ch0],
      ∀ r ∈ ch.metadata.statuteNumbers ++ ch.metadata.caseCitations, SubOf r text := by
  intro ch hch
  rcases List.mem_append.mp hch with h | h
  · exact hacc ch h
  · rcases List.mem_singleton.mp h with rfl
    exact h0

/-- Chunker-loop invariant: if every pending line (stripped), every reference
already in the running metadata and every reference in the emitted chunks lies
inside the document, then so does every reference of every produced chunk. -/
theorem chunkCaseLawGoRefs (chunkSize chunkOverlap totalLines : Nat) (text : Str) :
    ∀ (ls : List (Nat × Str)) (cur : Str) (md : CaseLawMeta) (acc : List CaseLawChunk),
      (∀ p ∈ ls, SubOf (pyStrip p.2) text) →
      (∀ r ∈ md.statuteNumbers ++ md.caseCitations, SubOf r text) →
      (∀ ch ∈ acc,
        ∀ r ∈ ch.metadata.statuteNumbers ++ ch.metadata.caseCitations, SubOf r text) →
      ∀ ch ∈ chunkCaseLawGo chunkSize chunkOverlap totalLines ls cur md acc,
        ∀ r ∈ ch.metadata.statuteNumbers ++ ch.metadata.caseCitations, SubOf r text := by
  intro ls
  induction ls with
  | nil =>
    intro cur md acc hls hmd hacc ch hch
    unfold chunkCaseLawGo at hch
    split at hch
    · exact hacc ch hch
    · rcases List.mem_append.mp hch with h | h
      · exact hacc ch h
      · rcases List.mem_singleton.mp h with rfl
        exact hmd
  | cons p rest ih =>
    intro cur md acc hls hmd hacc ch hch
    obtain ⟨i, rawLine⟩ := p
    have hline : SubOf (pyStrip rawLine) text :=
      hls (i, rawLine) (List.mem_cons_self _ rest)
    have hls2 : ∀ q ∈ rest, SubOf (pyStrip q.2) text :=
      fun q hq => hls q (List.mem_cons_of_mem _ hq)
    unfold chunkCaseLawGo at hch
    dsimp only at hch
    split at hch
    · exact ih cur md acc hls2 hmd hacc ch hch
    · split at hch
      · -- section marker: new metadata from the marker line
        refine ih _ (newSectionMeta (pyStrip rawLine)) _ hls2
          (newSectionMetaRefs (pyStrip rawLine) text hline) ?_ ch hch
        split
        · exact hacc
        · exact accRefsAppend acc _ text hacc hmd
      · split at hch
        · split at hch
          · -- size break at a sentence boundary
            exact ih _ _ _ hls2 (extendMetaRefs md (pyStrip rawLine) text hmd hline)
              (accRefsAppend acc _ text hacc
                (extendMetaRefs md (pyStrip rawLine) text hmd hline)) ch hch
          · -- forced size break
            exact ih _ _ _ hls2 (extendMetaRefs md (pyStrip rawLine) text hmd hline)
              (accRefsAppend acc _ text hacc
                (extendMetaRefs md (pyStrip rawLine) text hmd hline)) ch hch
        · -- line appended without a break
          exact ih _ _ _ hls2 (extendMetaRefs md (pyStrip rawLine) text hmd hline)
            hacc ch hch

/-- C4 (amended): every statute number and case citation stored in any chunk's
metadata by the case-law strategy is a substring of the source document's
text.  It need not be a substring of its own chunk's content: after a
size-based break the metadata keeps accumulating for the rest of the section
(see the counterexample), so a chunk may carry references extracted from text
that was emitted with an earlier chunk. -/
theorem c4_metadata_refs_from_document (chunkSize chunkOverlap : Nat) (text : Str)
    (ch : CaseLawChunk) (hch : ch ∈ chunk_case_law chunkSize chunkOverlap text)
    (r : Str) (hr : r ∈ ch.metadata.statuteNumbers ++ ch.metadata.caseCitations) :
    SubOf r text := by
  unfold chunk_case_law at hch
  refine chunkCaseLawGoRefs chunkSize chunkOverlap _ text _ [] _ []
    ?_ ?_ ?_ ch hch r hr
  · intro p hp
    exact subOfTrans _ _ _ (pyStripSubOf p.2)
      (splitCharSubOf '\n' text p.2 (memEnumFSnd 0 _ p hp))
  · intro r2 hr2
    cases hr2
  · intro ch2 hch2
    cases hch2

/-- Witness for C4 (amended): the single chunk produced from a small opinion
carries statute `1.2`, which indeed occurs in the document text. -/
theorem c4_metadata_refs_witness :
    SubOf "1.2".toList "OPINION\n1.2 x".toList :=
  c4_metadata_refs_from_document 1000 200 "OPINION\n1.2 x".toList
    ((chunk_case_law 1000 200 "OPINION\n1.2 x".toList).getLastD emptyChunk)
    (by decide) "1.2".toList (by decide)
